import Mathlib

/-!
Verification of the `jsonschema-equivalent` JSON Schema simplifier.

The development shallowly embeds the Rust sources:
  * `serde_json::Value` (with the `preserve_order` feature: objects are
    insertion-ordered maps) becomes the inductive `Json` below; JSON numbers
    are modelled as exact rationals, compared the way `Value::as_f64`
    comparisons behave on the numeric ranges exercised here.
  * in-place mutation (`&mut Value`) becomes explicit state passing: a Rust
    rule `fn(&mut Value) -> bool` becomes a Lean function
    `Json → Json × Bool`.
-/

/-- JSON value, mirroring `serde_json::Value` with insertion-ordered object
maps (`preserve_order`).  Numbers are exact rationals. -/
inductive Json where
  | null : Json
  | bool : Bool → Json
  | num : ℚ → Json
  | str : String → Json
  | arr : List Json → Json
  | obj : List (String × Json) → Json
  deriving Repr

mutual

/-- Structural equality test on `Json` (`serde_json::Value: PartialEq`). -/
def Json.beq : Json → Json → Bool
  | .null, .null => true
  | .bool a, .bool b => a = b
  | .num a, .num b => a = b
  | .str a, .str b => a = b
  | .arr a, .arr b => Json.beqL a b
  | .obj a, .obj b => Json.beqO a b
  | _, _ => false

/-- Equality test on JSON arrays. -/
def Json.beqL : List Json → List Json → Bool
  | [], [] => true
  | x :: xs, y :: ys => Json.beq x y && Json.beqL xs ys
  | _, _ => false

/-- Equality test on JSON object entry lists. -/
def Json.beqO : List (String × Json) → List (String × Json) → Bool
  | [], [] => true
  | (k, v) :: xs, (l, w) :: ys => k = l && Json.beq v w && Json.beqO xs ys
  | _, _ => false

end

theorem Json.beq_iff : ∀ a b : Json, Json.beq a b = true ↔ a = b := by
  have main : ∀ n : Nat, ∀ a : Json, sizeOf a ≤ n → ∀ b : Json,
      (Json.beq a b = true ↔ a = b) := by
    intro n
    induction n with
    | zero =>
      intro a ha
      cases a <;> simp at ha
    | succ n ih =>
      intro a ha b
      have hL : ∀ (xs : List Json), sizeOf xs ≤ n + 1 →
          ∀ ys : List Json, (Json.beqL xs ys = true ↔ xs = ys) := by
        intro xs
        induction xs with
        | nil => intro _ ys; cases ys <;> simp [Json.beqL]
        | cons x rest ihx =>
          intro hs ys
          cases ys with
          | nil => simp [Json.beqL]
          | cons y rest2 =>
            simp only [Json.beqL, Bool.and_eq_true]
            have h1 : sizeOf x ≤ n := by
              have := List.sizeOf_lt_of_mem (List.mem_cons_self x rest)
              omega
            have h2 : sizeOf rest ≤ n + 1 := by
              cases rest with
              | nil => simp
              | cons z zs =>
                have := List.sizeOf_lt_of_mem (List.mem_cons_of_mem x (List.mem_cons_self z zs))
                simp only [List.cons.sizeOf_spec] at hs ⊢
                omega
            rw [ih x h1 y, ihx h2 rest2]
            constructor
            · rintro ⟨rfl, rfl⟩; rfl
            · intro h; cases h; exact ⟨rfl, rfl⟩
      have hO : ∀ (xs : List (String × Json)), sizeOf xs ≤ n + 1 →
          ∀ ys : List (String × Json), (Json.beqO xs ys = true ↔ xs = ys) := by
        intro xs
        induction xs with
        | nil => intro _ ys; cases ys <;> simp [Json.beqO]
        | cons x rest ihx =>
          intro hs ys
          cases ys with
          | nil => cases x; simp [Json.beqO]
          | cons y rest2 =>
            cases x with
            | mk k v =>
              cases y with
              | mk l w =>
                simp only [Json.beqO, Bool.and_eq_true, decide_eq_true_eq]
                have h1 : sizeOf v ≤ n := by
                  have hm := List.sizeOf_lt_of_mem (List.mem_cons_self (k, v) rest)
                  simp only [Prod.mk.sizeOf_spec] at hm
                  omega
                have h2 : sizeOf rest ≤ n + 1 := by
                  cases rest with
                  | nil => simp
                  | cons z zs =>
                    have := List.sizeOf_lt_of_mem
                      (List.mem_cons_of_mem (k, v) (List.mem_cons_self z zs))
                    simp only [List.cons.sizeOf_spec] at hs ⊢
                    omega
                rw [ih v h1 w, ihx h2 rest2]
                constructor
                · rintro ⟨⟨rfl, rfl⟩, rfl⟩; rfl
                · intro h; cases h; exact ⟨⟨rfl, rfl⟩, rfl⟩
      cases a with
      | null => cases b <;> simp [Json.beq]
      | bool x => cases b <;> simp [Json.beq]
      | num x => cases b <;> simp [Json.beq]
      | str x => cases b <;> simp [Json.beq]
      | arr xs =>
        cases b with
        | arr ys =>
          simp only [Json.beq, Json.arr.injEq]
          exact hL xs (by simp only [Json.arr.sizeOf_spec] at ha; omega) ys
        | null | bool _ | num _ | str _ | obj _ => simp [Json.beq]
      | obj xs =>
        cases b with
        | obj ys =>
          simp only [Json.beq, Json.obj.injEq]
          exact hO xs (by simp only [Json.obj.sizeOf_spec] at ha; omega) ys
        | null | bool _ | num _ | str _ | arr _ => simp [Json.beq]
  intro a b
  exact main (sizeOf a) a le_rfl b

instance : DecidableEq Json := fun a b =>
  decidable_of_iff (Json.beq a b = true) (Json.beq_iff a b)

namespace Json

/-- `Map::get`: first entry with the given key (source maps have unique keys). -/
def getEntry : List (String × Json) → String → Option Json
  | [], _ => none
  | (k, v) :: rest, key => if k = key then some v else getEntry rest key

/-- `Value::get(key)`: `None` unless the value is an object. -/
def get : Json → String → Option Json
  | .obj kvs, key => getEntry kvs key
  | _, _ => none

/-- `Map::insert` with `preserve_order`: replace in place when the key is
present, otherwise append at the end. -/
def insertKey : List (String × Json) → String → Json → List (String × Json)
  | [], key, v => [(key, v)]
  | (k, w) :: rest, key, v =>
    if k = key then (k, v) :: rest else (k, w) :: insertKey rest key v

/-- `Map::remove` (shift semantics): drop the first entry with the key,
preserving the order of the remaining entries. -/
def eraseKey : List (String × Json) → String → List (String × Json)
  | [], _ => []
  | (k, w) :: rest, key => if k = key then rest else (k, w) :: eraseKey rest key

/-- `Value::as_f64`: numbers convert, everything else is `None`. -/
def asF64 : Json → Option ℚ
  | .num q => some q
  | _ => none

/-- True iff the value is an object. -/
def isObj : Json → Bool
  | .obj _ => true
  | _ => false

/-- True iff the value is a boolean. -/
def isBool : Json → Bool
  | .bool _ => true
  | _ => false

end Json

/-- Comparison of two `Option<f64>` by Rust's `PartialOrd`:
`None < Some _`, and `Some a < Some b` iff `a < b`. -/
def optLt : Option ℚ → Option ℚ → Bool
  | none, none => false
  | none, some _ => true
  | some _, none => false
  | some a, some b => decide (a < b)

/-- Comparison of two `Option<f64>` by Rust's `PartialOrd`:
`Some _ > None`, and `Some a > Some b` iff `a > b`. -/
def optGt : Option ℚ → Option ℚ → Bool
  | none, none => false
  | none, some _ => false
  | some _, none => true
  | some a, some b => decide (b < a)

/-- `PrimitiveType` from `src/primitive_type.rs`: the seven JSON Schema
primitive types, ordered as declared (which is also alphabetical). -/
inductive PrimitiveType where
  | array | boolean | integer | null | number | object | string
  deriving DecidableEq, Repr

namespace PrimitiveType

/-- `TryFrom<&str>` (successful cases). -/
def tryFromString : String → Option PrimitiveType
  | "array" => some .array
  | "boolean" => some .boolean
  | "integer" => some .integer
  | "null" => some .null
  | "number" => some .number
  | "object" => some .object
  | "string" => some .string
  | _ => none

/-- `TryFrom<&Value>`: only strings parse. -/
def tryFromValue : Json → Option PrimitiveType
  | .str s => tryFromString s
  | _ => none

/-- `ToString`. -/
def toName : PrimitiveType → String
  | .array => "array"
  | .boolean => "boolean"
  | .integer => "integer"
  | .null => "null"
  | .number => "number"
  | .object => "object"
  | .string => "string"

/-- `to_bit_representation_internal`: one bit per type, ignoring the
Integer-is-a-Number refinement. -/
def bitInternal : PrimitiveType → Nat
  | .array => 1
  | .boolean => 2
  | .integer => 4
  | .null => 8
  | .number => 16
  | .object => 32
  | .string => 64

/-- `to_bit_representation`: `Number` carries the `Integer` bit as well. -/
def bit (pt : PrimitiveType) : Nat :=
  if pt = .number then bitInternal .integer ||| bitInternal .number
  else bitInternal pt

/-- The declaration (= alphabetical) order used by `from_bit_representation`
and by `BTreeSet<PrimitiveType>` iteration. -/
def ordered : List PrimitiveType :=
  [.array, .boolean, .integer, .null, .number, .object, .string]

/-- `from_bit_representation`: the types whose internal bit is set, in the
fixed order. -/
def fromBits (bm : Nat) : List PrimitiveType :=
  ordered.filter (fun pt => bm &&& pt.bitInternal ≠ 0)

/-- Index used to keep `BTreeSet<PrimitiveType>` sorted. -/
def idx : PrimitiveType → Nat
  | .array => 0
  | .boolean => 1
  | .integer => 2
  | .null => 3
  | .number => 4
  | .object => 5
  | .string => 6

end PrimitiveType

/-! ## `src/helpers/types.rs`: `PrimitiveTypesBitMap`

The Rust struct wraps a `u8`; we model it as a `Nat` (always `< 128` when
built through the API below). -/

namespace PrimitiveTypesBitMap

/-- `PRIMITIVE_TYPES_BIT_MAP_ALL_TYPES`: all seven bits. -/
def allTypes : Nat := 127

/-- `PrimitiveTypesBitMap::from_schema_value` on `schema.get("type")`. -/
def from_schema_value : Option Json → Nat
  | some (.str s) =>
    match PrimitiveType.tryFromString s with
    | some pt => pt.bit
    | none => 0
  | some (.arr types) =>
    types.foldl
      (fun acc t =>
        match t with
        | .str s =>
          match PrimitiveType.tryFromString s with
          | some pt => acc ||| pt.bit
          | none => acc
        | _ => acc)
      0
  | none => allTypes
  | some _ => 0

/-- `PrimitiveTypesBitMap::from_schema`. -/
def from_schema : Json → Nat
  | .bool true => allTypes
  | .obj kvs => from_schema_value (Json.getEntry kvs "type")
  | _ => 0

/-- `PrimitiveTypesBitMap::contains`: the bit intersection is non-empty, and
for `Number` the standalone `Number` bit itself must be present. -/
def contains (bm : Nat) (pt : PrimitiveType) : Bool :=
  bm &&& pt.bit ≠ 0 &&
    (pt ≠ PrimitiveType.number ||
      bm &&& PrimitiveType.number.bitInternal ≠ 0)

/-- `PrimitiveTypesBitMap::remove`: clear the internal bit(s) of one type. -/
def remove (bm : Nat) (pt : PrimitiveType) : Nat :=
  bm &&& (allTypes ^^^ (pt.bit &&& allTypes))

/-- `PrimitiveTypesBitMap::remove_all`: clear the bits of another bitmap. -/
def remove_all (bm other : Nat) : Nat :=
  bm &&& (allTypes ^^^ (other &&& allTypes))

/-- `PrimitiveTypesBitMap::is_empty`. -/
def is_empty (bm : Nat) : Bool := bm = 0

/-- `PrimitiveTypesBitMap::is_complete`. -/
def is_complete (bm : Nat) : Bool := bm = allTypes

/-- `PrimitiveTypesBitMap::to_schema_value`: canonical `type` value. -/
def to_schema_value (bm : Nat) : Option Json :=
  if bm = 0 ∨ bm = allTypes then none
  else
    let bm2 :=
      if contains bm .integer ∧ contains bm .number then remove bm .integer
      else bm
    match PrimitiveType.fromBits bm2 with
    | [pt] => some (.str pt.toName)
    | pts => some (.arr (pts.map (fun pt => .str pt.toName)))

end PrimitiveTypesBitMap

/-! ## `src/helpers/is.rs` and `src/helpers/replace.rs` -/

namespace Is

/-- `is::false_schema`. -/
def false_schema : Json → Bool
  | .bool false => true
  | _ => false

/-- `is::true_schema`: the boolean `true` or an object without keys. -/
def true_schema : Json → Bool
  | .bool true => true
  | .obj [] => true
  | _ => false

end Is

namespace Replace

/-- `replace::with_false_schema`: new value plus the changed flag (false only
when the schema already was the `false` schema). -/
def with_false_schema (schema : Json) : Json × Bool :=
  if schema = .bool false then (schema, false) else (.bool false, true)

/-- `replace::type_with`: rewrite the `type` keyword of an object from a
bitmap; returns the updated entries and the changed flag. -/
def type_with (kvs : List (String × Json)) (bm : Nat) :
    List (String × Json) × Bool :=
  match Json.getEntry kvs "type" with
  | none =>
    match PrimitiveTypesBitMap.to_schema_value bm with
    | some v => (Json.insertKey kvs "type" v, true)
    | none => (kvs, false)
  | some previous =>
    match PrimitiveTypesBitMap.to_schema_value bm with
    | some v => (Json.insertKey kvs "type" v, previous ≠ v)
    | none => (Json.eraseKey kvs "type", true)

end Replace

/-! ## `src/constants.rs`: keyword tables -/

namespace Constants

/-- `KEYWORDS`: the 35 keywords of Draft 4/6/7. -/
def KEYWORDS : List String :=
  ["additionalItems", "additionalProperties", "allOf", "anyOf", "const",
   "contains", "contentEncoding", "contentMediaType", "dependencies", "else",
   "enum", "exclusiveMaximum", "exclusiveMinimum", "format", "if", "items",
   "maxItems", "maxLength", "maxProperties", "maximum", "minItems",
   "minLength", "minProperties", "minimum", "multipleOf", "not", "oneOf",
   "pattern", "patternProperties", "properties", "propertyNames", "required",
   "then", "type", "uniqueItems"]

/-- `KEYWORDS_WITH_SUBSCHEMAS` (identical to `KEYWORDS` in this revision). -/
def KEYWORDS_WITH_SUBSCHEMAS : List String := KEYWORDS

/-- `KEYWORDS_WITH_DIRECT_SUBSCHEMAS`. -/
def KEYWORDS_WITH_DIRECT_SUBSCHEMAS : List String :=
  ["additionalItems", "additionalProperties", "contains", "else", "if",
   "not", "propertyNames", "then"]

end Constants

/-! ## `src/keywords/min_max.rs` (the revision wired into the driver)

Each pair rule replaces the whole schema with the `false` schema when the
max value compares below the min value; the comparison is Rust's
`Option<f64>` ordering on `schema.get(k).map(Value::as_f64)`. -/

namespace MinMax

/-- One `update_*_*` rule of `min_max.rs`, parametrised by the keyword pair. -/
def update_pair (maxKey minKey : String) (schema : Json) : Json × Bool :=
  match (schema.get maxKey).map Json.asF64, (schema.get minKey).map Json.asF64 with
  | some mx, some mn =>
    if optLt mx mn then (.bool false, true) else (schema, false)
  | _, _ => (schema, false)

/-- `update_min_max_related_keywords`: only fires when a `type` keyword is
present; folds the five pair rules in source order. -/
def update_min_max_related_keywords (schema : Json) : Json × Bool :=
  if (schema.get "type").isSome then
    let r1 := update_pair "maxItems" "minItems" schema
    let r2 := update_pair "maxLength" "minLength" r1.1
    let r3 := update_pair "maxProperties" "minProperties" r2.1
    let r4 := update_pair "exclusiveMaximum" "exclusiveMinimum" r3.1
    let r5 := update_pair "maximum" "minimum" r4.1
    (r5.1, r1.2 || r2.2 || r3.2 || r4.2 || r5.2)
  else (schema, false)

end MinMax

/-! ## `src/keywords/type_.rs` -/

namespace TypeKw

/-- `KEYWORDS_TYPE_ARRAY`. -/
def KEYWORDS_TYPE_ARRAY : List String :=
  ["allOf", "anyOf", "additionalItems", "contains", "const", "enum", "items",
   "maxItems", "minItems", "not", "oneOf", "type", "uniqueItems"]

/-- `KEYWORDS_TYPE_BOOLEAN`. -/
def KEYWORDS_TYPE_BOOLEAN : List String :=
  ["allOf", "anyOf", "const", "enum", "type", "not", "oneOf"]

/-- `KEYWORDS_TYPE_NULL` (a copy of the boolean group). -/
def KEYWORDS_TYPE_NULL : List String := KEYWORDS_TYPE_BOOLEAN

/-- `KEYWORDS_TYPE_INTEGER`. -/
def KEYWORDS_TYPE_INTEGER : List String :=
  ["allOf", "anyOf", "const", "enum", "exclusiveMaximum", "exclusiveMinimum",
   "format", "maximum", "minimum", "multipleOf", "not", "oneOf", "type"]

/-- `KEYWORDS_TYPE_NUMBER` (a copy of the integer group). -/
def KEYWORDS_TYPE_NUMBER : List String := KEYWORDS_TYPE_INTEGER

/-- `KEYWORDS_TYPE_OBJECT`. -/
def KEYWORDS_TYPE_OBJECT : List String :=
  ["additionalProperties", "allOf", "anyOf", "dependencies", "const", "enum",
   "maxProperties", "minProperties", "not", "oneOf", "patternProperties",
   "properties", "propertyNames", "required", "type"]

/-- `KEYWORDS_TYPE_STRING`. -/
def KEYWORDS_TYPE_STRING : List String :=
  ["allOf", "anyOf", "contentMediaType", "contentEncoding", "const", "enum",
   "format", "maxLength", "minLength", "not", "oneOf", "pattern", "type"]

/-- The per-type keyword group. -/
def groupOf : PrimitiveType → List String
  | .array => KEYWORDS_TYPE_ARRAY
  | .boolean => KEYWORDS_TYPE_BOOLEAN
  | .integer => KEYWORDS_TYPE_INTEGER
  | .null => KEYWORDS_TYPE_NULL
  | .number => KEYWORDS_TYPE_NUMBER
  | .object => KEYWORDS_TYPE_OBJECT
  | .string => KEYWORDS_TYPE_STRING

/-- Insertion into a sorted duplicate-free list: `BTreeSet::insert`. -/
def insertSorted (pt : PrimitiveType) : List PrimitiveType → List PrimitiveType
  | [] => [pt]
  | x :: rest =>
    if pt.idx < x.idx then pt :: x :: rest
    else if pt = x then x :: rest
    else x :: insertSorted pt rest

/-- `helpers::get_primitive_types` (the revision reading the schema map):
the `BTreeSet<PrimitiveType>` parsed from the `type` keyword, as a sorted
duplicate-free list. -/
def get_primitive_types (kvs : List (String × Json)) : List PrimitiveType :=
  match Json.getEntry kvs "type" with
  | some (.str s) =>
    match PrimitiveType.tryFromString s with
    | some pt => [pt]
    | none => []
  | some (.arr types) =>
    types.foldl
      (fun acc t =>
        match PrimitiveType.tryFromValue t with
        | some pt => insertSorted pt acc
        | none => acc)
      []
  | _ => []

/-- Membership in the union of the groups of the allowed types
(`keys_to_reserve`). -/
def keepKey (pts : List PrimitiveType) (k : String) : Bool :=
  pts.any (fun pt => (groupOf pt).contains k)

/-- Write through `schema_object.get_mut(key)`: in-place update of an
existing entry (no-op when the key is absent, which the source rules make
unreachable via `expect`). -/
def setIfPresent (kvs : List (String × Json)) (key : String) (v : Json) :
    List (String × Json) :=
  if (Json.getEntry kvs key).isSome then Json.insertKey kvs key v else kvs

/-- Remove the first array element whose string value is `"integer"`. -/
def removeFirstIntegerString : List Json → List Json
  | [] => []
  | x :: rest =>
    if x = .str "integer" then rest else x :: removeFirstIntegerString rest

/-- `optimise_keyword_type_if_array`. -/
def optimise_keyword_type_if_array (schema : Json) : Json :=
  match schema with
  | .obj kvs =>
    match Json.getEntry kvs "type" with
    | some (.arr items) =>
      let types := items.filterMap PrimitiveType.tryFromValue
      match types with
      | [] => .obj (Json.eraseKey kvs "type")
      | [t] =>
        .obj (Json.insertKey (Json.eraseKey kvs "type") "type" (.str t.toName))
      | _ =>
        if types.contains PrimitiveType.integer &&
            types.contains PrimitiveType.number then
          if types.length = 2 then
            .obj (Json.insertKey kvs "type" (.str "number"))
          else
            .obj (Json.insertKey kvs "type" (.arr (removeFirstIntegerString items)))
        else .obj kvs
    | _ => .obj kvs
  | v => v

/-- `remove_extraneous_keys_keyword_type`. -/
def remove_extraneous_keys_keyword_type (schema : Json) : Json :=
  match schema with
  | .obj kvs =>
    let pts := get_primitive_types kvs
    if pts.isEmpty then .obj kvs
    else
      let kvs1 := kvs.filter
        (fun kv => !(Constants.KEYWORDS.contains kv.1 && !keepKey pts kv.1))
      let pts2 :=
        if pts.contains PrimitiveType.integer &&
            pts.contains PrimitiveType.number then
          pts.erase PrimitiveType.integer
        else pts
      let tv :=
        match pts2 with
        | [t] => Json.str t.toName
        | ts => Json.arr (ts.map (fun t => Json.str t.toName))
      .obj (setIfPresent kvs1 "type" tv)
  | v => v

end TypeKw

/-! ## `src/keywords/additional_properties.rs` and `src/keywords/required.rs` -/

namespace OtherKw

/-- `remove_empty_additional_properties`. -/
def remove_empty_additional_properties (schema : Json) : Json :=
  match schema.get "additionalProperties" with
  | some (.bool true) | some (.obj []) =>
    match schema with
    | .obj kvs => .obj (Json.eraseKey kvs "additionalProperties")
    | v => v
  | _ => schema

/-- `remove_empty_required`. -/
def remove_empty_required (schema : Json) : Json × Bool :=
  match schema.get "required" with
  | some (.arr []) =>
    match schema with
    | .obj kvs => (.obj (Json.eraseKey kvs "required"), true)
    | v => (v, true)
  | _ => (schema, false)

end OtherKw

/-! ## `src/keywords/mod.rs`: the driver -/

namespace Keywords

/-- `update_schema_no_recursive`: the five rules of `UPDATE_SCHEMA_METHODS`
in source order, stopping as soon as the schema becomes a boolean. -/
def update_schema_no_recursive (s : Json) : Json :=
  let s1 := (MinMax.update_min_max_related_keywords s).1
  if s1.isBool then s1 else
  let s2 := TypeKw.optimise_keyword_type_if_array s1
  if s2.isBool then s2 else
  let s3 := TypeKw.remove_extraneous_keys_keyword_type s2
  if s3.isBool then s3 else
  let s4 := OtherKw.remove_empty_additional_properties s3
  if s4.isBool then s4 else
  (OtherKw.remove_empty_required s4).1

/-- `update_schema`, fuelled.  The Rust function recurses on the in-place
updated sub-value (line 270 of `mod.rs`), which is not structurally smaller,
so the embedding threads an explicit fuel; one unit is consumed per object
nesting level, and since no rule increases nesting depth a fuel of
`jdepth schema + 1` (used by `update_schema` below) reaches every branch the
source reaches.  With fuel exhausted the schema is returned unchanged. -/
def updateSchemaF : Nat → Json → Json
  | _, .null => .null
  | _, .bool b => .bool b
  | _, .num q => .num q
  | _, .str s => .str s
  | _, .arr xs => .arr xs
  | 0, .obj kvs => .obj kvs
  | fuel + 1, .obj kvs =>
    let kvs2 := kvs.map (fun kv =>
      if Constants.KEYWORDS_WITH_SUBSCHEMAS.contains kv.1 then
        let v1 :=
          match kv.2 with
          | .obj m =>
            if Constants.KEYWORDS_WITH_DIRECT_SUBSCHEMAS.contains kv.1 then
              updateSchemaF fuel (.obj m)
            else .obj (m.map (fun kv2 => (kv2.1, updateSchemaF fuel kv2.2)))
          | .arr xs => .arr (xs.map (updateSchemaF fuel))
          | other => other
        (kv.1, updateSchemaF fuel v1)
      else kv)
    update_schema_no_recursive (.obj kvs2)

end Keywords

mutual

/-- Nesting depth of a JSON value (object/array nesting). -/
def jdepth : Json → Nat
  | .null => 0
  | .bool _ => 0
  | .num _ => 0
  | .str _ => 0
  | .arr xs => 1 + jdepthL xs
  | .obj kvs => 1 + jdepthO kvs

/-- Nesting depth of the elements of a JSON array. -/
def jdepthL : List Json → Nat
  | [] => 0
  | x :: xs => max (jdepth x) (jdepthL xs)

/-- Nesting depth of the values of a JSON object. -/
def jdepthO : List (String × Json) → Nat
  | [] => 0
  | (_, v) :: xs => max (jdepth v) (jdepthO xs)

end

namespace Keywords

/-- `update_schema` with its fuel instantiated (see `updateSchemaF`). -/
def update_schema (schema : Json) : Json :=
  updateSchemaF (jdepth schema + 1) schema

end Keywords

/-! ## `src/lib.rs`: public entry points -/

/-- `MAX_UPDATE_SCHEMA_ITERATIONS`. -/
def MAX_UPDATE_SCHEMA_ITERATIONS : Nat := 100

/-- The `for` loop of `jsonschema_equivalent_ref`: run `update_schema`, stop
when a pass reports no change, give up after the fuel (the iteration cap) is
exhausted and return the current schema.

Modelled from the spec: in this source revision `keywords::update_schema`
returns `&mut Value` while `lib.rs` tests it as a boolean changed flag; the
flag is modelled per spec invariant 2 / P4 ("`true` iff the schema value
differs from its pre-call value") as `update_schema s ≠ s`. -/
def jeLoop : Nat → Json → Json
  | 0, s => s
  | n + 1, s =>
    let s2 := Keywords.update_schema s
    if s2 = s then s2 else jeLoop n s2

/-- `jsonschema_equivalent_ref`. -/
def jsonschema_equivalent_ref (schema : Json) : Json :=
  jeLoop MAX_UPDATE_SCHEMA_ITERATIONS schema

/-- `jsonschema_equivalent`. -/
def jsonschema_equivalent (schema : Json) : Json :=
  jsonschema_equivalent_ref schema

/-! ## `src/keywords/macro_/maximum_minimum_related_keywords.rs`

The later revision of the max/min pair rules: TypeSet-aware.  State is passed
explicitly: `(schema, types)` in, `(schema, types, changed)` out. -/

namespace MaxMinKw

/-- Remove a key through `schema_object.remove(kw)`, reporting whether the
key was present. -/
def removeReport (kvs : List (String × Json)) (k : String) :
    List (String × Json) × Bool :=
  ((Json.eraseKey kvs k), (Json.getEntry kvs k).isSome)

/-- `cleanup_incongruent_keywords`. -/
def cleanup_incongruent_keywords (schema : Json) (types : Nat)
    (typesToRemove : Nat) (keywordsToRemove : List String) :
    Json × Nat × Bool :=
  let types2 := PrimitiveTypesBitMap.remove_all types typesToRemove
  if PrimitiveTypesBitMap.is_empty types2 then
    let r := Replace.with_false_schema schema
    (r.1, types2, r.2)
  else
    match schema with
    | .obj kvs =>
      let step := keywordsToRemove.foldl
        (fun acc k =>
          let r := removeReport acc.1 k
          (r.1, acc.2 || r.2))
        (kvs, false)
      (.obj step.1, types2, step.2)
    | v => (v, types2, false)

/-- The bit set removed by the two numeric pair rules:
`PrimitiveTypesBitMap::from(&[Integer, Number])`. -/
def numericBits : Nat :=
  PrimitiveType.integer.bit ||| PrimitiveType.number.bit

/-- Shared shape of the five `update_*` pair rules of this file.  `hasMinZero`
selects the extra `(_, Some(min)) if min <= 0` branch, present for the
items/length/properties rules but not for the numeric ones. -/
def update_pair_aware (trigger : PrimitiveType) (typesToRemove : Nat)
    (maxKey minKey : String) (hasMinZero : Bool)
    (schema : Json) (types : Nat) : Json × Nat × Bool :=
  if PrimitiveTypesBitMap.contains types trigger then
    match (schema.get maxKey).bind Json.asF64, (schema.get minKey).bind Json.asF64 with
    | some mx, some mn =>
      if mx < mn then
        cleanup_incongruent_keywords schema types typesToRemove [maxKey, minKey]
      else if hasMinZero ∧ mn ≤ 0 then
        match schema with
        | .obj kvs => (.obj (Json.eraseKey kvs minKey), types, true)
        | v => (v, types, false)
      else (schema, types, false)
    | none, some mn =>
      if hasMinZero ∧ mn ≤ 0 then
        match schema with
        | .obj kvs => (.obj (Json.eraseKey kvs minKey), types, true)
        | v => (v, types, false)
      else (schema, types, false)
    | _, _ => (schema, types, false)
  else (schema, types, false)

/-- `update_max_min_items`. -/
def update_max_min_items (schema : Json) (types : Nat) : Json × Nat × Bool :=
  update_pair_aware .array PrimitiveType.array.bit "maxItems" "minItems" true
    schema types

/-- `update_max_min_length`. -/
def update_max_min_length (schema : Json) (types : Nat) : Json × Nat × Bool :=
  update_pair_aware .string PrimitiveType.string.bit "maxLength" "minLength" true
    schema types

/-- `update_max_min_properties`. -/
def update_max_min_properties (schema : Json) (types : Nat) : Json × Nat × Bool :=
  update_pair_aware .object PrimitiveType.object.bit "maxProperties"
    "minProperties" true schema types

/-- `update_exclusive_maximum_minimum` (triggered on `Integer`, as the
Integer bit is also carried by `Number`). -/
def update_exclusive_maximum_minimum (schema : Json) (types : Nat) :
    Json × Nat × Bool :=
  update_pair_aware .integer numericBits "exclusiveMaximum" "exclusiveMinimum"
    false schema types

/-- `update_maximum_minimum`. -/
def update_maximum_minimum (schema : Json) (types : Nat) : Json × Nat × Bool :=
  update_pair_aware .integer numericBits "maximum" "minimum" false schema types

/-- `update_max_min_related_keywords` (the TypeSet-aware public rule). -/
def update_max_min_related_keywords (schema : Json) : Json × Bool :=
  let types0 := PrimitiveTypesBitMap.from_schema schema
  let r1 := update_max_min_items schema types0
  let r2 := update_max_min_length r1.1 r1.2.1
  let r3 := update_max_min_properties r2.1 r2.2.1
  let r4 := update_exclusive_maximum_minimum r3.1 r3.2.1
  let r5 := update_maximum_minimum r4.1 r4.2.1
  let updated := r1.2.2 || r2.2.2 || r3.2.2 || r4.2.2 || r5.2.2
  if updated then
    match r5.1 with
    | .obj kvs => (.obj (Replace.type_with kvs r5.2.1).1, true)
    | v => (v, true)
  else (r5.1, false)

end MaxMinKw

/-! ## `src/keywords/all_of.rs`: `simplify_all_of` -/

namespace AllOf

/-- `simplify_all_of`. -/
def simplify_all_of (schema : Json) : Json × Bool :=
  match schema with
  | .obj kvs =>
    let schemaTypes :=
      PrimitiveTypesBitMap.from_schema_value (Json.getEntry kvs "type")
    match Json.getEntry kvs "allOf" with
    | some (.arr items) =>
      let kept := items.filter (fun sub => !Is.true_schema sub)
      let removedAny := kept.length ≠ items.length
      if kept.isEmpty then
        if removedAny then (.obj (Json.eraseKey kvs "allOf"), true)
        else (.obj kvs, false)
      else if kept.any Is.false_schema then
        let r := Replace.with_false_schema
          (.obj (Json.insertKey kvs "allOf" (.arr kept)))
        (r.1, r.2)
      else
        let armTypes := kept.map
          (fun a => PrimitiveTypesBitMap.from_schema_value (a.get "type"))
        let common := armTypes.foldl (fun acc t => acc &&& t) schemaTypes
        if common = 0 then
          let r := Replace.with_false_schema
            (.obj (Json.insertKey kvs "allOf" (.arr kept)))
          (r.1, r.2)
        else
          let defined := armTypes.any (fun t => t ≠ 0)
          if !defined then
            (.obj (Json.insertKey kvs "allOf" (.arr kept)), false)
          else
            let kept2 := (kept.zip armTypes).map (fun p =>
              if p.2 ≠ common then
                match p.1 with
                | .obj armKvs =>
                  let r := Replace.type_with armKvs common
                  (Json.obj r.1, r.2)
                | v => (v, false)
              else (p.1, false))
            (.obj (Json.insertKey kvs "allOf" (.arr (kept2.map Prod.fst))),
             kept2.any Prod.snd)
    | _ => (.obj kvs, false)
  | v => (v, false)

end AllOf

/-! ## `src/helpers/intersect.rs`: `intersection_schema`

`IntersectStatus` is modelled by its `is_complete` flag (mirroring the local
`is_complete_intersection` of the source): the result triple is
`(schema, is_complete, updated_schema)`, `is_complete = true` standing for
`Complete` and `false` for `Partial`. -/

namespace Intersect

/-- `DEFFERRED_KEYWORDS`. -/
def DEFFERRED_KEYWORDS : List String :=
  ["additionalItems", "additionalProperties", "items", "patternProperties",
   "properties"]

/-- Modelled from the spec: `join_and_deduplicate` is referenced by
`intersect.rs` but not defined under `src/`; per §4.2 the `allOf`/`required`
merge concatenates the two arrays and deduplicates, preserving left order
followed by the appended right items.  The flag reports whether the left
array changed. -/
def join_and_deduplicate (left right : List Json) : List Json × Bool :=
  let merged := (left ++ right).foldl
    (fun acc x => if acc.contains x then acc else acc ++ [x]) []
  (merged, merged ≠ left)

/-- Modelled from the spec: `common_values_and_deduplicate` is referenced by
`intersect.rs` but not defined under `src/`; per §4.2 the `enum` merge
intersects the two arrays preserving left order (deduplicated).  The flag
reports whether the left array changed. -/
def common_values_and_deduplicate (left right : List Json) : List Json × Bool :=
  let merged := (left.filter (fun x => right.contains x)).foldl
    (fun acc x => if acc.contains x then acc else acc ++ [x]) []
  (merged, merged ≠ left)

/-- `handle_items_related_keywords`: a stub in the source, returns `false`. -/
def handle_items_related_keywords (_schema _other : List (String × Json)) :
    Bool := false

/-- `handle_properties_related_keywords`: a stub in the source, returns
`false`. -/
def handle_properties_related_keywords (_schema _other : List (String × Json)) :
    Bool := false

mutual

/-- `intersection_schema`, fuelled (see `intersection_schema` below for the
fuel instantiation; the fuel decreases on every step and the recursion of the
source only descends into sub-values of `other`, so the supplied fuel makes
the zero case unreachable). -/
def intersectionF : Nat → Json → Json → Json × Bool × Bool
  | 0, schema, _ => (schema, true, false)
  | fuel + 1, schema, other =>
    match other with
    | .obj oEntries =>
      match schema with
      | .obj sEntries => intersectLoopF fuel sEntries oEntries oEntries true false
      | .bool true => (.obj oEntries, true, true)
      | v => (v, true, false)
    | .bool false => ((Replace.with_false_schema schema).1, true, true)
    | _ => (schema, true, false)

/-- The `for (key, other_value) in other_schema_object` loop of
`intersection_schema`; `sEntries` is the current left object, `oFull` the
whole right object (consulted by the `type` arm), `rest` the remaining
entries.  Early `return`s of the source yield the triple directly; after the
last entry the two (stub) handler calls contribute nothing. -/
def intersectLoopF : Nat → List (String × Json) → List (String × Json) →
    List (String × Json) → Bool → Bool → Json × Bool × Bool
  | 0, sEntries, _, _, isComplete, updated => (.obj sEntries, isComplete, updated)
  | fuel + 1, sEntries, oFull, rest, isComplete, updated =>
    match rest with
    | [] =>
      let u1 := updated || handle_items_related_keywords sEntries oFull
      let u2 := u1 || handle_properties_related_keywords sEntries oFull
      (.obj sEntries, isComplete, u2)
    | (key, oVal) :: rest2 =>
      if DEFFERRED_KEYWORDS.contains key then
        intersectLoopF fuel sEntries oFull rest2 isComplete updated
      else
        match Json.getEntry sEntries key with
        | none =>
          intersectLoopF fuel (Json.insertKey sEntries key oVal) oFull rest2
            isComplete true
        | some sVal =>
          if sVal = oVal then
            intersectLoopF fuel sEntries oFull rest2 isComplete updated
          else if key = "allOf" ∨ key = "required" then
            match sVal, oVal with
            | .arr sItems, .arr oItems =>
              let r := join_and_deduplicate sItems oItems
              intersectLoopF fuel (Json.insertKey sEntries key (.arr r.1)) oFull
                rest2 isComplete (updated || r.2)
            | _, _ => intersectLoopF fuel sEntries oFull rest2 isComplete updated
          else if key = "const" ∨ key = "contentEncoding" ∨
              key = "contentMediaType" ∨ key = "format" then
            (.bool false, true, true)
          else if key = "contains" ∨ key = "propertyNames" then
            let r := intersectionF fuel sVal oVal
            intersectLoopF fuel (Json.insertKey sEntries key r.1) oFull rest2
              isComplete (updated || r.2.2)
          else if key = "enum" then
            match sVal, oVal with
            | .arr sItems, .arr oItems =>
              let r := common_values_and_deduplicate sItems oItems
              if r.1.isEmpty then (.bool false, true, true)
              else
                intersectLoopF fuel (Json.insertKey sEntries key (.arr r.1))
                  oFull rest2 isComplete (updated || r.2)
            | _, _ => intersectLoopF fuel sEntries oFull rest2 isComplete updated
          else if key = "exclusiveMaximum" ∨ key = "maxItems" ∨
              key = "maxLength" ∨ key = "maxProperties" ∨ key = "maximum" then
            if optLt (Json.asF64 oVal) (Json.asF64 sVal) then
              intersectLoopF fuel (Json.insertKey sEntries key oVal) oFull rest2
                isComplete true
            else intersectLoopF fuel sEntries oFull rest2 isComplete updated
          else if key = "exclusiveMinimum" ∨ key = "minItems" ∨
              key = "minLength" ∨ key = "minProperties" ∨ key = "minimum" then
            if optGt (Json.asF64 oVal) (Json.asF64 sVal) then
              intersectLoopF fuel (Json.insertKey sEntries key oVal) oFull rest2
                isComplete true
            else intersectLoopF fuel sEntries oFull rest2 isComplete updated
          else if key = "type" then
            let sT := PrimitiveTypesBitMap.from_schema_value
              (Json.getEntry sEntries "type")
            let oT := PrimitiveTypesBitMap.from_schema_value
              (Json.getEntry oFull "type")
            let fT := sT &&& oT
            if sT ≠ fT then
              let r := Replace.type_with sEntries fT
              if !r.2 || (Json.getEntry r.1 "type") = none then
                (.bool false, true, true)
              else intersectLoopF fuel r.1 oFull rest2 isComplete true
            else intersectLoopF fuel sEntries oFull rest2 isComplete updated
          else if key = "uniqueItems" then
            if oVal = .bool true then
              intersectLoopF fuel (Json.insertKey sEntries key (.bool true))
                oFull rest2 isComplete (updated || (sVal ≠ .bool true))
            else intersectLoopF fuel sEntries oFull rest2 isComplete updated
          else if key = "additionalItems" ∨ key = "additionalProperties" ∨
              key = "items" ∨ key = "patternProperties" ∨ key = "properties " then
            intersectLoopF fuel sEntries oFull rest2 isComplete updated
          else if key = "anyOf" ∨ key = "dependencies" ∨ key = "else" ∨
              key = "if" ∨ key = "multipleOf" ∨ key = "not" ∨ key = "oneOf" ∨
              key = "pattern" ∨ key = "then" then
            intersectLoopF fuel sEntries oFull rest2 false updated
          else
            intersectLoopF fuel sEntries oFull rest2 false updated

end

mutual

/-- Number of JSON nodes, used to bound the intersection fuel. -/
def jnodes : Json → Nat
  | .null => 1
  | .bool _ => 1
  | .num _ => 1
  | .str _ => 1
  | .arr xs => 1 + jnodesL xs
  | .obj kvs => 1 + jnodesO kvs

/-- Node count of array elements. -/
def jnodesL : List Json → Nat
  | [] => 0
  | x :: xs => jnodes x + jnodesL xs

/-- Node count of object entries. -/
def jnodesO : List (String × Json) → Nat
  | [] => 0
  | (_, v) :: xs => 1 + jnodes v + jnodesO xs

end

/-- `intersection_schema` with the fuel instantiated. -/
def intersection_schema (schema other : Json) : Json × Bool × Bool :=
  intersectionF (jnodes other + 1) schema other

end Intersect

/-! ## Spec-side definitions -/

namespace SpecModel

/-- Does a JSON instance have a given primitive type (`integer` being a
refinement of `number`)? -/
def instHasType (inst : Json) (pt : PrimitiveType) : Bool :=
  match inst, pt with
  | .null, .null => true
  | .bool _, .boolean => true
  | .num _, .number => true
  | .num q, .integer => q.den = 1
  | .str _, .string => true
  | .arr _, .array => true
  | .obj _, .object => true
  | _, _ => false

/-- Modelled from the spec: the reference Draft 4/6/7 validator of P1 is an
external collaborator (§1 places validator integration out of scope, and it
is not under `src/`), so the fragment needed here follows the JSON Schema
semantics the spec appeals to, restricted to the keywords `type`, `maxItems`
and `minItems`: the boolean schemas accept everything / nothing; `type`
requires the instance's primitive type to be among the listed ones;
`maxItems`/`minItems` bound the length of array instances and ignore other
instances; a non-schema value at schema position and unknown keywords impose
no constraint. -/
def validateFragment (schema inst : Json) : Bool :=
  match schema with
  | .bool b => b
  | .obj kvs =>
    let typeOk :=
      match Json.getEntry kvs "type" with
      | none => true
      | some (.str s) =>
        match PrimitiveType.tryFromString s with
        | some pt => instHasType inst pt
        | none => false
      | some (.arr ts) =>
        ts.any (fun t =>
          match PrimitiveType.tryFromValue t with
          | some pt => instHasType inst pt
          | none => false)
      | some _ => true
    let maxItemsOk :=
      match Json.getEntry kvs "maxItems", inst with
      | some (.num n), .arr xs => decide ((xs.length : ℚ) ≤ n)
      | _, _ => true
    let minItemsOk :=
      match Json.getEntry kvs "minItems", inst with
      | some (.num n), .arr xs => decide (n ≤ (xs.length : ℚ))
      | _, _ => true
    typeOk && maxItemsOk && minItemsOk
  | _ => true

/-- The canonical `type` serialization exactly as the claim states it: an
empty or full set produces no value; when both Integer and Number are
present, Integer is dropped; the remaining names are listed in the fixed
order array, boolean, integer, null, number, object, string; a singleton is
a string, anything else an array of strings. -/
def canonicalTypeNames (bm : Nat) : List String :=
  let present := PrimitiveType.ordered.filter (fun pt => bm &&& pt.bitInternal ≠ 0)
  let present2 :=
    if present.contains PrimitiveType.integer ∧
        present.contains PrimitiveType.number then
      present.erase PrimitiveType.integer
    else present
  present2.map PrimitiveType.toName

/-- The canonical `type` value per the claim (see `canonicalTypeNames`). -/
def canonicalTypeValue (bm : Nat) : Option Json :=
  if bm = 0 ∨ bm = 127 then none
  else
    match canonicalTypeNames bm with
    | [n] => some (.str n)
    | ns => some (.arr (ns.map Json.str))

end SpecModel

/-! ## The size measure of P3: total keyword count plus sub-schema count

Every object entry (a keyword at any nesting level) and every array element
(a sub-schema slot) counts one, plus the size of its value. -/

mutual

/-- Size of a JSON value: keywords plus array elements, recursively. -/
def sizeJ : Json → Nat
  | .null => 0
  | .bool _ => 0
  | .num _ => 0
  | .str _ => 0
  | .arr xs => sizeL xs
  | .obj kvs => sizeE kvs

/-- Size of a list of array elements. -/
def sizeL : List Json → Nat
  | [] => 0
  | x :: xs => 1 + sizeJ x + sizeL xs

/-- Size of a list of object entries. -/
def sizeE : List (String × Json) → Nat
  | [] => 0
  | kv :: xs => 1 + sizeJ kv.2 + sizeE xs

end

/-! ## Size lemmas for the map primitives -/

theorem sizeE_eraseKey_le (kvs : List (String × Json)) (k : String) :
    sizeE (Json.eraseKey kvs k) ≤ sizeE kvs := by
  induction kvs with
  | nil => simp [Json.eraseKey]
  | cons kv rest ih =>
    cases kv with
    | mk k0 v0 =>
      simp only [Json.eraseKey]
      split
      · simp only [sizeE]; omega
      · simp only [sizeE]; omega

theorem sizeE_eraseKey_present (kvs : List (String × Json)) (k : String)
    (v : Json) (h : Json.getEntry kvs k = some v) :
    sizeE (Json.eraseKey kvs k) + 1 + sizeJ v = sizeE kvs := by
  induction kvs with
  | nil => simp [Json.getEntry] at h
  | cons kv rest ih =>
    cases kv with
    | mk k0 v0 =>
      simp only [Json.getEntry] at h
      simp only [Json.eraseKey]
      by_cases hk : k0 = k
      · simp only [if_pos hk] at h ⊢
        cases h
        simp only [sizeE]
        omega
      · simp only [if_neg hk] at h ⊢
        have := ih h
        simp only [sizeE]
        omega

theorem sizeE_insertKey_present (kvs : List (String × Json)) (k : String)
    (v w : Json) (h : Json.getEntry kvs k = some v) :
    sizeE (Json.insertKey kvs k w) + sizeJ v = sizeE kvs + sizeJ w := by
  induction kvs with
  | nil => simp [Json.getEntry] at h
  | cons kv rest ih =>
    cases kv with
    | mk k0 v0 =>
      simp only [Json.getEntry] at h
      simp only [Json.insertKey]
      by_cases hk : k0 = k
      · simp only [if_pos hk] at h ⊢
        cases h
        simp only [sizeE]
        omega
      · simp only [if_neg hk] at h ⊢
        have := ih h
        simp only [sizeE]
        omega

theorem sizeE_insertKey_absent (kvs : List (String × Json)) (k : String)
    (w : Json) (h : Json.getEntry kvs k = none) :
    sizeE (Json.insertKey kvs k w) = sizeE kvs + 1 + sizeJ w := by
  induction kvs with
  | nil => simp only [Json.insertKey, sizeE]; omega
  | cons kv rest ih =>
    cases kv with
    | mk k0 v0 =>
      simp only [Json.getEntry] at h
      simp only [Json.insertKey]
      by_cases hk : k0 = k
      · simp [hk] at h
      · simp only [if_neg hk] at h ⊢
        have := ih h
        simp only [sizeE]
        omega

theorem sizeE_filter_le (kvs : List (String × Json))
    (p : String × Json → Bool) :
    sizeE (kvs.filter p) ≤ sizeE kvs := by
  induction kvs with
  | nil => simp
  | cons kv rest ih =>
    simp only [List.filter]
    split
    · simp only [sizeE]; omega
    · simp only [sizeE]; omega

theorem sizeE_map_le (kvs : List (String × Json))
    (f : String × Json → String × Json)
    (h : ∀ kv ∈ kvs, sizeJ (f kv).2 ≤ sizeJ kv.2) :
    sizeE (kvs.map f) ≤ sizeE kvs := by
  induction kvs with
  | nil => simp
  | cons kv rest ih =>
    simp only [List.map_cons, sizeE]
    have h1 := h kv (List.mem_cons_self kv rest)
    have h2 := ih (fun x hx => h x (List.mem_cons_of_mem kv hx))
    omega

theorem sizeL_map_le (xs : List Json) (f : Json → Json)
    (h : ∀ x ∈ xs, sizeJ (f x) ≤ sizeJ x) :
    sizeL (xs.map f) ≤ sizeL xs := by
  induction xs with
  | nil => simp
  | cons x rest ih =>
    simp only [List.map_cons, sizeL]
    have h1 := h x (List.mem_cons_self x rest)
    have h2 := ih (fun y hy => h y (List.mem_cons_of_mem x hy))
    omega

theorem length_le_sizeL (xs : List Json) : xs.length ≤ sizeL xs := by
  induction xs with
  | nil => simp
  | cons x rest ih => simp only [List.length_cons, sizeL]; omega

theorem sizeL_map_str {α : Type} (l : List α) (f : α → String) :
    sizeL (l.map (fun t => Json.str (f t))) = l.length := by
  induction l with
  | nil => rfl
  | cons x rest ih => simp only [List.map_cons, sizeL, List.length_cons, sizeJ]; omega

theorem sizeL_removeFirstIntegerString_le (xs : List Json) :
    sizeL (TypeKw.removeFirstIntegerString xs) ≤ sizeL xs := by
  induction xs with
  | nil => simp [TypeKw.removeFirstIntegerString]
  | cons x rest ih =>
    simp only [TypeKw.removeFirstIntegerString]
    split
    · simp only [sizeL]; omega
    · simp only [sizeL]; omega

theorem insertSorted_length_le (pt : PrimitiveType) (l : List PrimitiveType) :
    (TypeKw.insertSorted pt l).length ≤ l.length + 1 := by
  induction l with
  | nil => simp [TypeKw.insertSorted]
  | cons x rest ih =>
    simp only [TypeKw.insertSorted]
    split
    · simp
    · split
      · simp
      · simp only [List.length_cons]; omega

theorem foldl_step_length_le {α β : Type} (f : List α → β → List α)
    (hf : ∀ (acc : List α) (t : β), (f acc t).length ≤ acc.length + 1) :
    ∀ (ts : List β) (acc : List α),
      (ts.foldl f acc).length ≤ acc.length + ts.length := by
  intro ts
  induction ts with
  | nil => intro acc; simp
  | cons t rest ih =>
    intro acc
    simp only [List.foldl_cons, List.length_cons]
    have h1 := ih (f acc t)
    have h2 := hf acc t
    omega

theorem get_primitive_types_step_length_le (acc : List PrimitiveType)
    (t : Json) :
    (match PrimitiveType.tryFromValue t with
      | some pt => TypeKw.insertSorted pt acc
      | none => acc).length ≤ acc.length + 1 := by
  split
  · exact insertSorted_length_le _ _
  · omega

theorem getEntry_filter_keyTrue (kvs : List (String × Json)) (k : String)
    (p : String × Json → Bool) (hp : ∀ v : Json, p (k, v) = true) :
    Json.getEntry (kvs.filter p) k = Json.getEntry kvs k := by
  induction kvs with
  | nil => simp
  | cons kv rest ih =>
    cases kv with
    | mk k0 v0 =>
      by_cases hk : k0 = k
      · subst hk
        simp only [List.filter, hp v0]
        simp [Json.getEntry]
      · simp only [List.filter]
        split
        · simp only [Json.getEntry, if_neg hk]
          exact ih
        · simp only [Json.getEntry, if_neg hk]
          exact ih

/-! ## Monotonicity of each driver rule in the P3 size measure -/

theorem MinMax_update_pair_cases (maxK minK : String) (s : Json) :
    (MinMax.update_pair maxK minK s).1 = s ∨
      (MinMax.update_pair maxK minK s).1 = Json.bool false := by
  unfold MinMax.update_pair
  split
  · split
    · exact Or.inr rfl
    · exact Or.inl rfl
  · exact Or.inl rfl

theorem MinMax_update_pair_preserve (maxK minK : String) (t s : Json)
    (h : t = s ∨ t = Json.bool false) :
    (MinMax.update_pair maxK minK t).1 = s ∨
      (MinMax.update_pair maxK minK t).1 = Json.bool false := by
  rcases MinMax_update_pair_cases maxK minK t with h1 | h1
  · rw [h1]; exact h
  · rw [h1]; exact Or.inr rfl

theorem MinMax_result_cases (s : Json) :
    (MinMax.update_min_max_related_keywords s).1 = s ∨
      (MinMax.update_min_max_related_keywords s).1 = Json.bool false := by
  unfold MinMax.update_min_max_related_keywords
  split
  · exact MinMax_update_pair_preserve _ _ _ _
      (MinMax_update_pair_preserve _ _ _ _
        (MinMax_update_pair_preserve _ _ _ _
          (MinMax_update_pair_preserve _ _ _ _
            (MinMax_update_pair_preserve _ _ _ _ (Or.inl rfl)))))
  · exact Or.inl rfl

theorem MinMax_size_le (s : Json) :
    sizeJ (MinMax.update_min_max_related_keywords s).1 ≤ sizeJ s := by
  rcases MinMax_result_cases s with h | h <;> rw [h]
  exact Nat.zero_le _

theorem optimise_size_le (s : Json) :
    sizeJ (TypeKw.optimise_keyword_type_if_array s) ≤ sizeJ s := by
  cases s with
  | obj kvs =>
    rcases hty : Json.getEntry kvs "type" with _ | tv
    · simp [TypeKw.optimise_keyword_type_if_array, hty]
    · cases tv with
      | arr items =>
        simp only [TypeKw.optimise_keyword_type_if_array, hty]
        rcases hfm : items.filterMap PrimitiveType.tryFromValue with _ | ⟨t, ts⟩
        · simp only [hfm, sizeJ]
          exact sizeE_eraseKey_le kvs "type"
        · cases ts with
          | nil =>
            simp only [hfm, sizeJ]
            rcases h2 : Json.getEntry (Json.eraseKey kvs "type") "type" with _ | v2
            · have h3 := sizeE_insertKey_absent _ "type" (Json.str t.toName) h2
              have h4 := sizeE_eraseKey_present kvs "type" _ hty
              simp only [sizeJ] at h3 h4 ⊢
              omega
            · have h3 := sizeE_insertKey_present _ "type" _ (Json.str t.toName) h2
              have h4 := sizeE_eraseKey_le kvs "type"
              simp only [sizeJ] at h3 ⊢
              omega
          | cons t2 ts2 =>
            simp only [hfm, sizeJ]
            split
            · split
              · have h3 := sizeE_insertKey_present kvs "type" _ (Json.str "number") hty
                simp only [sizeJ] at h3 ⊢
                omega
              · have h3 := sizeE_insertKey_present kvs "type" _
                  (Json.arr (TypeKw.removeFirstIntegerString items)) hty
                have h4 := sizeL_removeFirstIntegerString_le items
                simp only [sizeJ] at h3 ⊢
                omega
            · exact le_rfl
      | null => simp [TypeKw.optimise_keyword_type_if_array, hty]
      | bool b => simp [TypeKw.optimise_keyword_type_if_array, hty]
      | num q => simp [TypeKw.optimise_keyword_type_if_array, hty]
      | str st => simp [TypeKw.optimise_keyword_type_if_array, hty]
      | obj o => simp [TypeKw.optimise_keyword_type_if_array, hty]
  | null => exact le_rfl
  | bool b => exact le_rfl
  | num q => exact le_rfl
  | str st => exact le_rfl
  | arr xs => exact le_rfl

theorem type_mem_group (pt : PrimitiveType) :
    (TypeKw.groupOf pt).contains "type" = true := by
  cases pt <;> decide

theorem keepKey_type_true (pts : List PrimitiveType) (hne : pts ≠ []) :
    TypeKw.keepKey pts "type" = true := by
  cases pts with
  | nil => exact absurd rfl hne
  | cons p rest =>
    simp only [TypeKw.keepKey, List.any_cons, Bool.or_eq_true]
    exact Or.inl (type_mem_group p)

theorem canonical_match_size_le (l : List PrimitiveType) :
    sizeJ (match l with
      | [t] => Json.str t.toName
      | ts => Json.arr (ts.map (fun t => Json.str t.toName))) ≤ l.length := by
  match l with
  | [] => simp [sizeJ, sizeL]
  | [t] => simp [sizeJ]
  | t :: t2 :: rest =>
    simp only [sizeJ, List.map_cons, sizeL_map_str, sizeL, List.length_cons]
    omega

theorem singleton_contains_int_num (pt : PrimitiveType) :
    ([pt].contains PrimitiveType.integer && [pt].contains PrimitiveType.number)
      = false := by
  cases pt <;> decide

theorem remove_extraneous_size_le (s : Json) :
    sizeJ (TypeKw.remove_extraneous_keys_keyword_type s) ≤ sizeJ s := by
  cases s with
  | obj kvs =>
    rcases hty : Json.getEntry kvs "type" with _ | tv
    · simp [TypeKw.remove_extraneous_keys_keyword_type,
        TypeKw.get_primitive_types, hty]
    · cases tv with
      | str st =>
        rcases hp : PrimitiveType.tryFromString st with _ | pt
        · simp [TypeKw.remove_extraneous_keys_keyword_type,
            TypeKw.get_primitive_types, hty, hp]
        · simp only [TypeKw.remove_extraneous_keys_keyword_type,
            TypeKw.get_primitive_types, hty, hp, List.isEmpty_cons,
            if_neg Bool.false_ne_true, TypeKw.setIfPresent,
            singleton_contains_int_num pt, if_neg (by simp : ¬False)]
          have hfil : Json.getEntry
              (kvs.filter (fun kv =>
                !(Constants.KEYWORDS.contains kv.1 &&
                  !TypeKw.keepKey [pt] kv.1))) "type" =
              Json.getEntry kvs "type" := by
            apply getEntry_filter_keyTrue
            intro v
            simp [keepKey_type_true [pt] (by simp)]
          rw [hty] at hfil
          simp only [hfil, Option.isSome_some, eq_self_iff_true, if_true, sizeJ]
          have h3 := sizeE_insertKey_present _ "type" _ (Json.str pt.toName) hfil
          have h5 := sizeE_filter_le kvs (fun kv =>
            !(Constants.KEYWORDS.contains kv.1 && !TypeKw.keepKey [pt] kv.1))
          simp only [sizeJ] at h3
          omega
      | arr ts =>
        by_cases hem :
            (TypeKw.get_primitive_types kvs).isEmpty = true
        · simp [TypeKw.remove_extraneous_keys_keyword_type, hem]
        · have hne : TypeKw.get_primitive_types kvs ≠ [] := by
            intro hc
            rw [hc] at hem
            exact hem rfl
          simp only [TypeKw.remove_extraneous_keys_keyword_type, hem,
            Bool.false_eq_true, if_false, TypeKw.setIfPresent]
          have hfil : Json.getEntry
              (kvs.filter (fun kv =>
                !(Constants.KEYWORDS.contains kv.1 &&
                  !TypeKw.keepKey (TypeKw.get_primitive_types kvs) kv.1))) "type" =
              Json.getEntry kvs "type" := by
            apply getEntry_filter_keyTrue
            intro v
            simp [keepKey_type_true _ hne]
          rw [hty] at hfil
          simp only [hfil, Option.isSome_some, eq_self_iff_true, if_true, sizeJ]
          -- size of the rewritten type value
          have hlen2 : (if (TypeKw.get_primitive_types kvs).contains
                  PrimitiveType.integer &&
                (TypeKw.get_primitive_types kvs).contains PrimitiveType.number
              then (TypeKw.get_primitive_types kvs).erase PrimitiveType.integer
              else TypeKw.get_primitive_types kvs).length ≤
              (TypeKw.get_primitive_types kvs).length := by
            split
            · exact (List.erase_sublist _ _).length_le
            · exact le_rfl
          have hlen : (TypeKw.get_primitive_types kvs).length ≤ ts.length := by
            have := foldl_step_length_le
              (fun acc t =>
                match PrimitiveType.tryFromValue t with
                | some pt => TypeKw.insertSorted pt acc
                | none => acc)
              get_primitive_types_step_length_le ts []
            simpa [TypeKw.get_primitive_types, hty] using this
          have htv := canonical_match_size_le
            (if (TypeKw.get_primitive_types kvs).contains
                  PrimitiveType.integer &&
                (TypeKw.get_primitive_types kvs).contains PrimitiveType.number
              then (TypeKw.get_primitive_types kvs).erase PrimitiveType.integer
              else TypeKw.get_primitive_types kvs)
          have h3 := sizeE_insertKey_present _ "type" _
            (match (if (TypeKw.get_primitive_types kvs).contains
                  PrimitiveType.integer &&
                (TypeKw.get_primitive_types kvs).contains PrimitiveType.number
              then (TypeKw.get_primitive_types kvs).erase PrimitiveType.integer
              else TypeKw.get_primitive_types kvs) with
              | [t] => Json.str t.toName
              | ts => Json.arr (ts.map (fun t => Json.str t.toName))) hfil
          have h5 := sizeE_filter_le kvs (fun kv =>
            !(Constants.KEYWORDS.contains kv.1 &&
              !TypeKw.keepKey (TypeKw.get_primitive_types kvs) kv.1))
          have h6 := length_le_sizeL ts
          simp only [sizeJ] at h3 ⊢
          omega
      | null => simp [TypeKw.remove_extraneous_keys_keyword_type,
          TypeKw.get_primitive_types, hty]
      | bool b => simp [TypeKw.remove_extraneous_keys_keyword_type,
          TypeKw.get_primitive_types, hty]
      | num q => simp [TypeKw.remove_extraneous_keys_keyword_type,
          TypeKw.get_primitive_types, hty]
      | obj o => simp [TypeKw.remove_extraneous_keys_keyword_type,
          TypeKw.get_primitive_types, hty]
  | null => exact le_rfl
  | bool b => exact le_rfl
  | num q => exact le_rfl
  | str st => exact le_rfl
  | arr xs => exact le_rfl

theorem addprops_size_le (s : Json) :
    sizeJ (OtherKw.remove_empty_additional_properties s) ≤ sizeJ s := by
  cases s with
  | obj kvs =>
    rcases hap : Json.getEntry kvs "additionalProperties" with _ | v
    · simp [OtherKw.remove_empty_additional_properties, Json.get, hap]
    · match v with
      | .bool true =>
        simp only [OtherKw.remove_empty_additional_properties, Json.get, hap,
          sizeJ]
        exact sizeE_eraseKey_le kvs "additionalProperties"
      | .bool false =>
        simp [OtherKw.remove_empty_additional_properties, Json.get, hap]
      | .obj [] =>
        simp only [OtherKw.remove_empty_additional_properties, Json.get, hap,
          sizeJ]
        exact sizeE_eraseKey_le kvs "additionalProperties"
      | .obj (kv :: rest) =>
        simp [OtherKw.remove_empty_additional_properties, Json.get, hap]
      | .null => simp [OtherKw.remove_empty_additional_properties, Json.get, hap]
      | .num q => simp [OtherKw.remove_empty_additional_properties, Json.get, hap]
      | .str st => simp [OtherKw.remove_empty_additional_properties, Json.get, hap]
      | .arr xs => simp [OtherKw.remove_empty_additional_properties, Json.get, hap]
  | null => exact le_rfl
  | bool b => exact le_rfl
  | num q => exact le_rfl
  | str st => exact le_rfl
  | arr xs => exact le_rfl

theorem required_size_le (s : Json) :
    sizeJ (OtherKw.remove_empty_required s).1 ≤ sizeJ s := by
  cases s with
  | obj kvs =>
    rcases hrq : Json.getEntry kvs "required" with _ | v
    · simp [OtherKw.remove_empty_required, Json.get, hrq]
    · match v with
      | .arr [] =>
        simp only [OtherKw.remove_empty_required, Json.get, hrq, sizeJ]
        exact sizeE_eraseKey_le kvs "required"
      | .arr (x :: rest) =>
        simp [OtherKw.remove_empty_required, Json.get, hrq]
      | .null => simp [OtherKw.remove_empty_required, Json.get, hrq]
      | .bool b => simp [OtherKw.remove_empty_required, Json.get, hrq]
      | .num q => simp [OtherKw.remove_empty_required, Json.get, hrq]
      | .str st => simp [OtherKw.remove_empty_required, Json.get, hrq]
      | .obj o => simp [OtherKw.remove_empty_required, Json.get, hrq]
  | null => exact le_rfl
  | bool b => exact le_rfl
  | num q => exact le_rfl
  | str st => exact le_rfl
  | arr xs => exact le_rfl

theorem update_schema_no_recursive_size_le (s : Json) :
    sizeJ (Keywords.update_schema_no_recursive s) ≤ sizeJ s := by
  unfold Keywords.update_schema_no_recursive
  dsimp only
  split
  · exact MinMax_size_le s
  · split
    · exact le_trans (optimise_size_le _) (MinMax_size_le s)
    · split
      · exact le_trans (remove_extraneous_size_le _)
          (le_trans (optimise_size_le _) (MinMax_size_le s))
      · split
        · exact le_trans (addprops_size_le _)
            (le_trans (remove_extraneous_size_le _)
              (le_trans (optimise_size_le _) (MinMax_size_le s)))
        · exact le_trans (required_size_le _)
            (le_trans (addprops_size_le _)
              (le_trans (remove_extraneous_size_le _)
                (le_trans (optimise_size_le _) (MinMax_size_le s))))

theorem updateSchemaF_size_le (fuel : Nat) :
    ∀ s, sizeJ (Keywords.updateSchemaF fuel s) ≤ sizeJ s := by
  induction fuel with
  | zero => intro s; cases s <;> simp [Keywords.updateSchemaF]
  | succ n ih =>
    intro s
    cases s with
    | obj kvs =>
      simp only [Keywords.updateSchemaF]
      refine le_trans (update_schema_no_recursive_size_le _) ?_
      simp only [sizeJ]
      apply sizeE_map_le
      intro kv _
      split
      · dsimp only
        refine le_trans (ih _) ?_
        split
        · rename_i x m heq
          rw [heq]
          split
          · exact ih _
          · simp only [sizeJ]
            apply sizeE_map_le
            intro kv2 _
            exact ih _
        · rename_i x xs heq
          rw [heq]
          simp only [sizeJ]
          apply sizeL_map_le
          intro y _
          exact ih _
        · exact le_rfl
      · exact le_rfl
    | null => exact le_rfl
    | bool b => exact le_rfl
    | num q => exact le_rfl
    | str st => exact le_rfl
    | arr xs => exact le_rfl

theorem update_schema_size_le (s : Json) :
    sizeJ (Keywords.update_schema s) ≤ sizeJ s :=
  updateSchemaF_size_le _ s

theorem jeLoop_size_le (fuel : Nat) :
    ∀ s, sizeJ (jeLoop fuel s) ≤ sizeJ s := by
  induction fuel with
  | zero => intro s; exact le_rfl
  | succ n ih =>
    intro s
    simp only [jeLoop]
    split
    · exact update_schema_size_le s
    · exact le_trans (ih _) (update_schema_size_le s)

/-! ## Lookup lemmas for the map primitives -/

theorem getEntry_insertKey_self (kvs : List (String × Json)) (k : String)
    (v : Json) : Json.getEntry (Json.insertKey kvs k v) k = some v := by
  induction kvs with
  | nil => simp [Json.insertKey, Json.getEntry]
  | cons kv rest ih =>
    cases kv with
    | mk k0 v0 =>
      simp only [Json.insertKey]
      by_cases hk : k0 = k
      · simp [Json.getEntry, hk]
      · simp [Json.getEntry, hk, ih]

theorem getEntry_insertKey_ne (kvs : List (String × Json)) (k k2 : String)
    (v : Json) (h : k2 ≠ k) :
    Json.getEntry (Json.insertKey kvs k v) k2 = Json.getEntry kvs k2 := by
  induction kvs with
  | nil =>
    have hk2 : k ≠ k2 := fun hc => h hc.symm
    simp [Json.insertKey, Json.getEntry, hk2]
  | cons kv rest ih =>
    cases kv with
    | mk k0 v0 =>
      by_cases hk : k0 = k
      · subst hk
        have hk2 : k0 ≠ k2 := fun hc => h hc.symm
        simp [Json.insertKey, Json.getEntry, hk2]
      · by_cases hk2 : k0 = k2
        · subst hk2
          simp [Json.insertKey, Json.getEntry, hk]
        · simp [Json.insertKey, Json.getEntry, hk, hk2, ih]

theorem getEntry_eraseKey_ne (kvs : List (String × Json)) (k k2 : String)
    (h : k2 ≠ k) :
    Json.getEntry (Json.eraseKey kvs k) k2 = Json.getEntry kvs k2 := by
  induction kvs with
  | nil => simp [Json.eraseKey]
  | cons kv rest ih =>
    cases kv with
    | mk k0 v0 =>
      by_cases hk : k0 = k
      · subst hk
        have hk2 : k0 ≠ k2 := fun hc => h hc.symm
        simp [Json.eraseKey, Json.getEntry, hk2]
      · by_cases hk2 : k0 = k2
        · subst hk2
          simp [Json.eraseKey, Json.getEntry, hk]
        · simp [Json.eraseKey, Json.getEntry, hk, hk2, ih]

theorem eraseKey_sublist (kvs : List (String × Json)) (k : String) :
    (Json.eraseKey kvs k).Sublist kvs := by
  induction kvs with
  | nil => simp [Json.eraseKey]
  | cons kv rest ih =>
    cases kv with
    | mk k0 v0 =>
      simp only [Json.eraseKey]
      split
      · exact (List.sublist_cons_self _ _)
      · exact List.Sublist.cons₂ _ ih

theorem eraseKey_nodup (kvs : List (String × Json)) (k : String)
    (h : (kvs.map Prod.fst).Nodup) :
    ((Json.eraseKey kvs k).map Prod.fst).Nodup :=
  List.Nodup.sublist (List.Sublist.map Prod.fst (eraseKey_sublist kvs k)) h

theorem getEntry_some_mem_keys (kvs : List (String × Json)) (k : String)
    (v : Json) (h : Json.getEntry kvs k = some v) : k ∈ kvs.map Prod.fst := by
  induction kvs with
  | nil => simp [Json.getEntry] at h
  | cons kv rest ih =>
    cases kv with
    | mk k0 v0 =>
      simp only [Json.getEntry] at h
      by_cases hk : k0 = k
      · subst hk
        simp
      · rw [if_neg hk] at h
        simp only [List.map_cons, List.mem_cons]
        exact Or.inr (ih h)

theorem getEntry_eraseKey_self (kvs : List (String × Json)) (k : String)
    (h : (kvs.map Prod.fst).Nodup) :
    Json.getEntry (Json.eraseKey kvs k) k = none := by
  induction kvs with
  | nil => simp [Json.eraseKey, Json.getEntry]
  | cons kv rest ih =>
    cases kv with
    | mk k0 v0 =>
      simp only [List.map_cons, List.nodup_cons] at h
      simp only [Json.eraseKey]
      by_cases hk : k0 = k
      · subst hk
        rcases hg : Json.getEntry rest k0 with _ | v
        · simp [hg]
        · exact absurd (getEntry_some_mem_keys rest k0 v hg) h.1
      · simp only [if_neg hk, Json.getEntry, if_neg hk]
        exact ih h.2

theorem bind_asF64_some (kvs : List (String × Json)) (k : String) (q : ℚ)
    (h : (Json.getEntry kvs k).bind Json.asF64 = some q) :
    Json.getEntry kvs k = some (Json.num q) := by
  rcases hg : Json.getEntry kvs k with _ | v
  · rw [hg] at h; simp at h
  · rw [hg] at h
    cases v <;> simp [Json.asF64] at h
    rw [h]

/-! ## Lemmas about `replace::type_with` and the TypeSet-aware pair rules -/

theorem to_schema_value_isSome (bm : Nat) (h0 : bm ≠ 0) (h127 : bm ≠ 127) :
    PrimitiveTypesBitMap.to_schema_value bm ≠ none := by
  unfold PrimitiveTypesBitMap.to_schema_value
  rw [if_neg (by tauto)]
  split <;> (dsimp only; split <;> simp)

theorem type_with_get_type (kvs : List (String × Json)) (bm : Nat)
    (h : PrimitiveTypesBitMap.to_schema_value bm ≠ none) :
    Json.getEntry (Replace.type_with kvs bm).1 "type" =
      PrimitiveTypesBitMap.to_schema_value bm := by
  unfold Replace.type_with
  rcases hg : Json.getEntry kvs "type" with _ | prev <;>
    rcases hv : PrimitiveTypesBitMap.to_schema_value bm with _ | v
  · exact absurd hv h
  · simp only []
    exact getEntry_insertKey_self kvs "type" v
  · exact absurd hv h
  · simp only []
    exact getEntry_insertKey_self kvs "type" v

theorem type_with_get_ne (kvs : List (String × Json)) (bm : Nat) (k : String)
    (hk : k ≠ "type") :
    Json.getEntry (Replace.type_with kvs bm).1 k = Json.getEntry kvs k := by
  unfold Replace.type_with
  rcases hg : Json.getEntry kvs "type" with _ | prev <;>
    rcases hv : PrimitiveTypesBitMap.to_schema_value bm with _ | v
  · simp only []
  · simp only []
    exact getEntry_insertKey_ne kvs "type" k v hk
  · simp only []
    exact getEntry_eraseKey_ne kvs "type" k hk
  · simp only []
    exact getEntry_insertKey_ne kvs "type" k v hk

theorem update_pair_aware_noop (t : PrimitiveType) (bits : Nat)
    (maxK minK : String) (z : Bool) (s : Json) (ty : Nat)
    (h1 : (s.get maxK).bind Json.asF64 = none)
    (h2 : (s.get minK).bind Json.asF64 = none) :
    MaxMinKw.update_pair_aware t bits maxK minK z s ty = (s, ty, false) := by
  unfold MaxMinKw.update_pair_aware
  split
  · rw [h1, h2]
  · rfl

theorem update_pair_aware_fire (t : PrimitiveType) (bits : Nat)
    (maxK minK : String) (z : Bool) (s : Json) (ty : Nat) (mx mn : ℚ)
    (hc : PrimitiveTypesBitMap.contains ty t = true)
    (h1 : (s.get maxK).bind Json.asF64 = some mx)
    (h2 : (s.get minK).bind Json.asF64 = some mn)
    (hlt : mx < mn) :
    MaxMinKw.update_pair_aware t bits maxK minK z s ty =
      MaxMinKw.cleanup_incongruent_keywords s ty bits [maxK, minK] := by
  unfold MaxMinKw.update_pair_aware
  rw [if_pos (by rw [hc]), h1, h2]
  simp only [if_pos hlt]

theorem cleanup_eq_false (kvs : List (String × Json)) (ty bits : Nat)
    (maxK minK : String)
    (hz : PrimitiveTypesBitMap.remove_all ty bits = 0) :
    MaxMinKw.cleanup_incongruent_keywords (.obj kvs) ty bits [maxK, minK] =
      (.bool false, 0, true) := by
  unfold MaxMinKw.cleanup_incongruent_keywords
  rw [hz]
  simp [PrimitiveTypesBitMap.is_empty, Replace.with_false_schema]

theorem cleanup_eq_erase (kvs : List (String × Json)) (ty bits : Nat)
    (maxK minK : String)
    (hnz : PrimitiveTypesBitMap.remove_all ty bits ≠ 0)
    (hp : (Json.getEntry kvs maxK).isSome = true) :
    MaxMinKw.cleanup_incongruent_keywords (.obj kvs) ty bits [maxK, minK] =
      (.obj (Json.eraseKey (Json.eraseKey kvs maxK) minK),
        PrimitiveTypesBitMap.remove_all ty bits, true) := by
  unfold MaxMinKw.cleanup_incongruent_keywords
  rw [if_neg (by simpa [PrimitiveTypesBitMap.is_empty] using hnz)]
  simp only [List.foldl_cons, List.foldl_nil, MaxMinKw.removeReport, hp]
  simp

/-! ## Claim C6: parametrization of the five max/min pairs -/

/-- The five max/min keyword pairs of
`macro_/maximum_minimum_related_keywords.rs`. -/
inductive MMPair where
  | items | length | props | exclusive | numeric
  deriving DecidableEq, Repr

namespace MMPair

/-- The max keyword of the pair. -/
def maxKey : MMPair → String
  | .items => "maxItems"
  | .length => "maxLength"
  | .props => "maxProperties"
  | .exclusive => "exclusiveMaximum"
  | .numeric => "maximum"

/-- The min keyword of the pair. -/
def minKey : MMPair → String
  | .items => "minItems"
  | .length => "minLength"
  | .props => "minProperties"
  | .exclusive => "exclusiveMinimum"
  | .numeric => "minimum"

/-- The primitive type whose presence the rule checks (the numeric pairs
check `Integer`, whose bit is also carried by `Number`). -/
def trigger : MMPair → PrimitiveType
  | .items => .array
  | .length => .string
  | .props => .object
  | .exclusive => .integer
  | .numeric => .integer

/-- The bit set the rule removes from the TypeSet. -/
def bits : MMPair → Nat
  | .items => PrimitiveType.array.bit
  | .length => PrimitiveType.string.bit
  | .props => PrimitiveType.object.bit
  | .exclusive => MaxMinKw.numericBits
  | .numeric => MaxMinKw.numericBits

/-- The max/min keywords of the other four pairs. -/
def otherKeys : MMPair → List String
  | .items => ["maxLength", "minLength", "maxProperties", "minProperties",
      "exclusiveMaximum", "exclusiveMinimum", "maximum", "minimum"]
  | .length => ["maxItems", "minItems", "maxProperties", "minProperties",
      "exclusiveMaximum", "exclusiveMinimum", "maximum", "minimum"]
  | .props => ["maxItems", "minItems", "maxLength", "minLength",
      "exclusiveMaximum", "exclusiveMinimum", "maximum", "minimum"]
  | .exclusive => ["maxItems", "minItems", "maxLength", "minLength",
      "maxProperties", "minProperties", "maximum", "minimum"]
  | .numeric => ["maxItems", "minItems", "maxLength", "minLength",
      "maxProperties", "minProperties", "exclusiveMaximum", "exclusiveMinimum"]

end MMPair

/-! ## The C6 core lemma: behaviour of the TypeSet-aware pair rules -/

theorem remove_all_ne_127 (ty bits : Nat)
    (hb : PrimitiveTypesBitMap.allTypes ^^^ (bits &&& PrimitiveTypesBitMap.allTypes) < 127) :
    PrimitiveTypesBitMap.remove_all ty bits ≠ 127 := by
  unfold PrimitiveTypesBitMap.remove_all
  have h := Nat.and_le_right (n := ty)
    (m := PrimitiveTypesBitMap.allTypes ^^^ (bits &&& PrimitiveTypesBitMap.allTypes))
  omega

/-- Core behaviour of `update_max_min_related_keywords` when exactly the pair
`p` is present (with a contradictory bound) and its trigger type is allowed:
the TypeSet loses exactly the bits of `p`, an empty result collapses the
schema to `false`, and otherwise the two keywords are deleted and `type`
rewritten to the reduced set while all other keys are untouched. -/
theorem update_max_min_pair_behaviour (p : MMPair)
    (kvs : List (String × Json)) (mx mn : ℚ)
    (hnd : (kvs.map Prod.fst).Nodup)
    (h1 : ((Json.obj kvs).get p.maxKey).bind Json.asF64 = some mx)
    (h2 : ((Json.obj kvs).get p.minKey).bind Json.asF64 = some mn)
    (hlt : mx < mn)
    (htrig : PrimitiveTypesBitMap.contains
      (PrimitiveTypesBitMap.from_schema (Json.obj kvs)) p.trigger = true)
    (habs : ∀ k ∈ p.otherKeys, Json.getEntry kvs k = none) :
    (MaxMinKw.update_max_min_related_keywords (Json.obj kvs)).2 = true ∧
    (PrimitiveTypesBitMap.remove_all
        (PrimitiveTypesBitMap.from_schema (Json.obj kvs)) p.bits = 0 →
      (MaxMinKw.update_max_min_related_keywords (Json.obj kvs)).1 =
        Json.bool false) ∧
    (PrimitiveTypesBitMap.remove_all
        (PrimitiveTypesBitMap.from_schema (Json.obj kvs)) p.bits ≠ 0 →
      ((MaxMinKw.update_max_min_related_keywords (Json.obj kvs)).1.get
          p.maxKey = none ∧
       (MaxMinKw.update_max_min_related_keywords (Json.obj kvs)).1.get
          p.minKey = none ∧
       (MaxMinKw.update_max_min_related_keywords (Json.obj kvs)).1.get "type" =
          PrimitiveTypesBitMap.to_schema_value
            (PrimitiveTypesBitMap.remove_all
              (PrimitiveTypesBitMap.from_schema (Json.obj kvs)) p.bits) ∧
       (∀ k, k ≠ p.maxKey → k ≠ p.minKey → k ≠ "type" →
          (MaxMinKw.update_max_min_related_keywords (Json.obj kvs)).1.get k =
            Json.getEntry kvs k))) := by
  cases p with
  | items =>
    simp only [MMPair.maxKey, MMPair.minKey, MMPair.trigger, MMPair.bits,
      MMPair.otherKeys] at h1 h2 htrig habs ⊢
    have hgmax := bind_asF64_some kvs "maxItems" mx (by simpa [Json.get] using h1)
    have hfire := update_pair_aware_fire PrimitiveType.array
      PrimitiveType.array.bit "maxItems" "minItems" true (Json.obj kvs)
      (PrimitiveTypesBitMap.from_schema (Json.obj kvs)) mx mn htrig h1 h2 hlt
    set ty0 := PrimitiveTypesBitMap.from_schema (Json.obj kvs) with hty0
    by_cases hz : PrimitiveTypesBitMap.remove_all ty0 PrimitiveType.array.bit = 0
    · have hr : MaxMinKw.update_max_min_items (Json.obj kvs) ty0 =
          (Json.bool false, 0, true) := by
        unfold MaxMinKw.update_max_min_items
        rw [hfire, cleanup_eq_false kvs ty0 _ _ _ hz]
      have hplength : ∀ ty, MaxMinKw.update_max_min_length (Json.bool false) ty =
          (Json.bool false, ty, false) := fun ty => by
        unfold MaxMinKw.update_max_min_length
        exact update_pair_aware_noop _ _ _ _ _ _ _ rfl rfl
      have hpprops : ∀ ty, MaxMinKw.update_max_min_properties (Json.bool false) ty =
          (Json.bool false, ty, false) := fun ty => by
        unfold MaxMinKw.update_max_min_properties
        exact update_pair_aware_noop _ _ _ _ _ _ _ rfl rfl
      have hpexclusive : ∀ ty, MaxMinKw.update_exclusive_maximum_minimum (Json.bool false) ty =
          (Json.bool false, ty, false) := fun ty => by
        unfold MaxMinKw.update_exclusive_maximum_minimum
        exact update_pair_aware_noop _ _ _ _ _ _ _ rfl rfl
      have hpnumeric : ∀ ty, MaxMinKw.update_maximum_minimum (Json.bool false) ty =
          (Json.bool false, ty, false) := fun ty => by
        unfold MaxMinKw.update_maximum_minimum
        exact update_pair_aware_noop _ _ _ _ _ _ _ rfl rfl
      have hres : MaxMinKw.update_max_min_related_keywords (Json.obj kvs) =
          (Json.bool false, true) := by
        unfold MaxMinKw.update_max_min_related_keywords
        rw [← hty0]
        dsimp only
        rw [hr]
        dsimp only
        rw [hplength]
        dsimp only
        rw [hpprops]
        dsimp only
        rw [hpexclusive]
        dsimp only
        rw [hpnumeric]
        dsimp only
        rfl
      exact ⟨by rw [hres], fun _ => by rw [hres], fun hc => absurd hz hc⟩
    · have hpres : (Json.getEntry kvs "maxItems").isSome = true := by
        rw [hgmax]; rfl
      have hr : MaxMinKw.update_max_min_items (Json.obj kvs) ty0 =
          (Json.obj (Json.eraseKey (Json.eraseKey kvs "maxItems") "minItems"),
            PrimitiveTypesBitMap.remove_all ty0 PrimitiveType.array.bit, true) := by
        unfold MaxMinKw.update_max_min_items
        rw [hfire, cleanup_eq_erase kvs ty0 _ _ _ hz hpres]
      set kvs2 := Json.eraseKey (Json.eraseKey kvs "maxItems") "minItems" with hkvs2
      have hget2 : ∀ k, k ≠ "maxItems" → k ≠ "minItems" →
          Json.getEntry kvs2 k = Json.getEntry kvs k := by
        intro k hk1 hk2
        rw [hkvs2, getEntry_eraseKey_ne _ _ _ hk2, getEntry_eraseKey_ne _ _ _ hk1]
      have hplength : ∀ ty, MaxMinKw.update_max_min_length (Json.obj kvs2) ty =
          (Json.obj kvs2, ty, false) := fun ty => by
        unfold MaxMinKw.update_max_min_length
        exact update_pair_aware_noop _ _ _ _ _ _ _
          (by simp [Json.get, hget2 "maxLength" (by decide) (by decide),
            habs "maxLength" (by decide)])
          (by simp [Json.get, hget2 "minLength" (by decide) (by decide),
            habs "minLength" (by decide)])
      have hpprops : ∀ ty, MaxMinKw.update_max_min_properties (Json.obj kvs2) ty =
          (Json.obj kvs2, ty, false) := fun ty => by
        unfold MaxMinKw.update_max_min_properties
        exact update_pair_aware_noop _ _ _ _ _ _ _
          (by simp [Json.get, hget2 "maxProperties" (by decide) (by decide),
            habs "maxProperties" (by decide)])
          (by simp [Json.get, hget2 "minProperties" (by decide) (by decide),
            habs "minProperties" (by decide)])
      have hpexclusive : ∀ ty, MaxMinKw.update_exclusive_maximum_minimum (Json.obj kvs2) ty =
          (Json.obj kvs2, ty, false) := fun ty => by
        unfold MaxMinKw.update_exclusive_maximum_minimum
        exact update_pair_aware_noop _ _ _ _ _ _ _
          (by simp [Json.get, hget2 "exclusiveMaximum" (by decide) (by decide),
            habs "exclusiveMaximum" (by decide)])
          (by simp [Json.get, hget2 "exclusiveMinimum" (by decide) (by decide),
            habs "exclusiveMinimum" (by decide)])
      have hpnumeric : ∀ ty, MaxMinKw.update_maximum_minimum (Json.obj kvs2) ty =
          (Json.obj kvs2, ty, false) := fun ty => by
        unfold MaxMinKw.update_maximum_minimum
        exact update_pair_aware_noop _ _ _ _ _ _ _
          (by simp [Json.get, hget2 "maximum" (by decide) (by decide),
            habs "maximum" (by decide)])
          (by simp [Json.get, hget2 "minimum" (by decide) (by decide),
            habs "minimum" (by decide)])
      have hres : MaxMinKw.update_max_min_related_keywords (Json.obj kvs) =
          (Json.obj (Replace.type_with kvs2
              (PrimitiveTypesBitMap.remove_all ty0 PrimitiveType.array.bit)).1,
            true) := by
        unfold MaxMinKw.update_max_min_related_keywords
        rw [← hty0]
        dsimp only
        rw [hr]
        dsimp only
        rw [hplength]
        dsimp only
        rw [hpprops]
        dsimp only
        rw [hpexclusive]
        dsimp only
        rw [hpnumeric]
        dsimp only
        rfl
      have hred127 := remove_all_ne_127 ty0 PrimitiveType.array.bit (by decide)
      have hsome := to_schema_value_isSome _ hz hred127
      refine ⟨by rw [hres], fun hc => absurd hc hz, fun _ => ⟨?_, ?_, ?_, ?_⟩⟩
      · rw [hres]
        simp only [Json.get]
        rw [type_with_get_ne _ _ _ (by decide)]
        rw [hkvs2, getEntry_eraseKey_ne _ _ _ (by decide : ("maxItems" : String) ≠ "minItems")]
        exact getEntry_eraseKey_self kvs "maxItems" hnd
      · rw [hres]
        simp only [Json.get]
        rw [type_with_get_ne _ _ _ (by decide)]
        rw [hkvs2]
        exact getEntry_eraseKey_self _ "minItems" (eraseKey_nodup kvs "maxItems" hnd)
      · rw [hres]
        simp only [Json.get]
        exact type_with_get_type kvs2 _ hsome
      · intro k hk1 hk2 hk3
        rw [hres]
        simp only [Json.get]
        rw [type_with_get_ne _ _ _ hk3]
        exact hget2 k hk1 hk2
  | length =>
    simp only [MMPair.maxKey, MMPair.minKey, MMPair.trigger, MMPair.bits,
      MMPair.otherKeys] at h1 h2 htrig habs ⊢
    have hgmax := bind_asF64_some kvs "maxLength" mx (by simpa [Json.get] using h1)
    have hfire := update_pair_aware_fire PrimitiveType.string
      PrimitiveType.string.bit "maxLength" "minLength" true (Json.obj kvs)
      (PrimitiveTypesBitMap.from_schema (Json.obj kvs)) mx mn htrig h1 h2 hlt
    set ty0 := PrimitiveTypesBitMap.from_schema (Json.obj kvs) with hty0
    have hbitems : ∀ ty, MaxMinKw.update_max_min_items (Json.obj kvs) ty =
        (Json.obj kvs, ty, false) := fun ty => by
      unfold MaxMinKw.update_max_min_items
      exact update_pair_aware_noop _ _ _ _ _ _ _
        (by simp [Json.get, habs "maxItems" (by decide)])
        (by simp [Json.get, habs "minItems" (by decide)])
    by_cases hz : PrimitiveTypesBitMap.remove_all ty0 PrimitiveType.string.bit = 0
    · have hr : MaxMinKw.update_max_min_length (Json.obj kvs) ty0 =
          (Json.bool false, 0, true) := by
        unfold MaxMinKw.update_max_min_length
        rw [hfire, cleanup_eq_false kvs ty0 _ _ _ hz]
      have hpprops : ∀ ty, MaxMinKw.update_max_min_properties (Json.bool false) ty =
          (Json.bool false, ty, false) := fun ty => by
        unfold MaxMinKw.update_max_min_properties
        exact update_pair_aware_noop _ _ _ _ _ _ _ rfl rfl
      have hpexclusive : ∀ ty, MaxMinKw.update_exclusive_maximum_minimum (Json.bool false) ty =
          (Json.bool false, ty, false) := fun ty => by
        unfold MaxMinKw.update_exclusive_maximum_minimum
        exact update_pair_aware_noop _ _ _ _ _ _ _ rfl rfl
      have hpnumeric : ∀ ty, MaxMinKw.update_maximum_minimum (Json.bool false) ty =
          (Json.bool false, ty, false) := fun ty => by
        unfold MaxMinKw.update_maximum_minimum
        exact update_pair_aware_noop _ _ _ _ _ _ _ rfl rfl
      have hres : MaxMinKw.update_max_min_related_keywords (Json.obj kvs) =
          (Json.bool false, true) := by
        unfold MaxMinKw.update_max_min_related_keywords
        rw [← hty0]
        dsimp only
        rw [hbitems]
        dsimp only
        rw [hr]
        dsimp only
        rw [hpprops]
        dsimp only
        rw [hpexclusive]
        dsimp only
        rw [hpnumeric]
        dsimp only
        rfl
      exact ⟨by rw [hres], fun _ => by rw [hres], fun hc => absurd hz hc⟩
    · have hpres : (Json.getEntry kvs "maxLength").isSome = true := by
        rw [hgmax]; rfl
      have hr : MaxMinKw.update_max_min_length (Json.obj kvs) ty0 =
          (Json.obj (Json.eraseKey (Json.eraseKey kvs "maxLength") "minLength"),
            PrimitiveTypesBitMap.remove_all ty0 PrimitiveType.string.bit, true) := by
        unfold MaxMinKw.update_max_min_length
        rw [hfire, cleanup_eq_erase kvs ty0 _ _ _ hz hpres]
      set kvs2 := Json.eraseKey (Json.eraseKey kvs "maxLength") "minLength" with hkvs2
      have hget2 : ∀ k, k ≠ "maxLength" → k ≠ "minLength" →
          Json.getEntry kvs2 k = Json.getEntry kvs k := by
        intro k hk1 hk2
        rw [hkvs2, getEntry_eraseKey_ne _ _ _ hk2, getEntry_eraseKey_ne _ _ _ hk1]
      have hpprops : ∀ ty, MaxMinKw.update_max_min_properties (Json.obj kvs2) ty =
          (Json.obj kvs2, ty, false) := fun ty => by
        unfold MaxMinKw.update_max_min_properties
        exact update_pair_aware_noop _ _ _ _ _ _ _
          (by simp [Json.get, hget2 "maxProperties" (by decide) (by decide),
            habs "maxProperties" (by decide)])
          (by simp [Json.get, hget2 "minProperties" (by decide) (by decide),
            habs "minProperties" (by decide)])
      have hpexclusive : ∀ ty, MaxMinKw.update_exclusive_maximum_minimum (Json.obj kvs2) ty =
          (Json.obj kvs2, ty, false) := fun ty => by
        unfold MaxMinKw.update_exclusive_maximum_minimum
        exact update_pair_aware_noop _ _ _ _ _ _ _
          (by simp [Json.get, hget2 "exclusiveMaximum" (by decide) (by decide),
            habs "exclusiveMaximum" (by decide)])
          (by simp [Json.get, hget2 "exclusiveMinimum" (by decide) (by decide),
            habs "exclusiveMinimum" (by decide)])
      have hpnumeric : ∀ ty, MaxMinKw.update_maximum_minimum (Json.obj kvs2) ty =
          (Json.obj kvs2, ty, false) := fun ty => by
        unfold MaxMinKw.update_maximum_minimum
        exact update_pair_aware_noop _ _ _ _ _ _ _
          (by simp [Json.get, hget2 "maximum" (by decide) (by decide),
            habs "maximum" (by decide)])
          (by simp [Json.get, hget2 "minimum" (by decide) (by decide),
            habs "minimum" (by decide)])
      have hres : MaxMinKw.update_max_min_related_keywords (Json.obj kvs) =
          (Json.obj (Replace.type_with kvs2
              (PrimitiveTypesBitMap.remove_all ty0 PrimitiveType.string.bit)).1,
            true) := by
        unfold MaxMinKw.update_max_min_related_keywords
        rw [← hty0]
        dsimp only
        rw [hbitems]
        dsimp only
        rw [hr]
        dsimp only
        rw [hpprops]
        dsimp only
        rw [hpexclusive]
        dsimp only
        rw [hpnumeric]
        dsimp only
        rfl
      have hred127 := remove_all_ne_127 ty0 PrimitiveType.string.bit (by decide)
      have hsome := to_schema_value_isSome _ hz hred127
      refine ⟨by rw [hres], fun hc => absurd hc hz, fun _ => ⟨?_, ?_, ?_, ?_⟩⟩
      · rw [hres]
        simp only [Json.get]
        rw [type_with_get_ne _ _ _ (by decide)]
        rw [hkvs2, getEntry_eraseKey_ne _ _ _ (by decide : ("maxLength" : String) ≠ "minLength")]
        exact getEntry_eraseKey_self kvs "maxLength" hnd
      · rw [hres]
        simp only [Json.get]
        rw [type_with_get_ne _ _ _ (by decide)]
        rw [hkvs2]
        exact getEntry_eraseKey_self _ "minLength" (eraseKey_nodup kvs "maxLength" hnd)
      · rw [hres]
        simp only [Json.get]
        exact type_with_get_type kvs2 _ hsome
      · intro k hk1 hk2 hk3
        rw [hres]
        simp only [Json.get]
        rw [type_with_get_ne _ _ _ hk3]
        exact hget2 k hk1 hk2
  | props =>
    simp only [MMPair.maxKey, MMPair.minKey, MMPair.trigger, MMPair.bits,
      MMPair.otherKeys] at h1 h2 htrig habs ⊢
    have hgmax := bind_asF64_some kvs "maxProperties" mx (by simpa [Json.get] using h1)
    have hfire := update_pair_aware_fire PrimitiveType.object
      PrimitiveType.object.bit "maxProperties" "minProperties" true (Json.obj kvs)
      (PrimitiveTypesBitMap.from_schema (Json.obj kvs)) mx mn htrig h1 h2 hlt
    set ty0 := PrimitiveTypesBitMap.from_schema (Json.obj kvs) with hty0
    have hbitems : ∀ ty, MaxMinKw.update_max_min_items (Json.obj kvs) ty =
        (Json.obj kvs, ty, false) := fun ty => by
      unfold MaxMinKw.update_max_min_items
      exact update_pair_aware_noop _ _ _ _ _ _ _
        (by simp [Json.get, habs "maxItems" (by decide)])
        (by simp [Json.get, habs "minItems" (by decide)])
    have hblength : ∀ ty, MaxMinKw.update_max_min_length (Json.obj kvs) ty =
        (Json.obj kvs, ty, false) := fun ty => by
      unfold MaxMinKw.update_max_min_length
      exact update_pair_aware_noop _ _ _ _ _ _ _
        (by simp [Json.get, habs "maxLength" (by decide)])
        (by simp [Json.get, habs "minLength" (by decide)])
    by_cases hz : PrimitiveTypesBitMap.remove_all ty0 PrimitiveType.object.bit = 0
    · have hr : MaxMinKw.update_max_min_properties (Json.obj kvs) ty0 =
          (Json.bool false, 0, true) := by
        unfold MaxMinKw.update_max_min_properties
        rw [hfire, cleanup_eq_false kvs ty0 _ _ _ hz]
      have hpexclusive : ∀ ty, MaxMinKw.update_exclusive_maximum_minimum (Json.bool false) ty =
          (Json.bool false, ty, false) := fun ty => by
        unfold MaxMinKw.update_exclusive_maximum_minimum
        exact update_pair_aware_noop _ _ _ _ _ _ _ rfl rfl
      have hpnumeric : ∀ ty, MaxMinKw.update_maximum_minimum (Json.bool false) ty =
          (Json.bool false, ty, false) := fun ty => by
        unfold MaxMinKw.update_maximum_minimum
        exact update_pair_aware_noop _ _ _ _ _ _ _ rfl rfl
      have hres : MaxMinKw.update_max_min_related_keywords (Json.obj kvs) =
          (Json.bool false, true) := by
        unfold MaxMinKw.update_max_min_related_keywords
        rw [← hty0]
        dsimp only
        rw [hbitems]
        dsimp only
        rw [hblength]
        dsimp only
        rw [hr]
        dsimp only
        rw [hpexclusive]
        dsimp only
        rw [hpnumeric]
        dsimp only
        rfl
      exact ⟨by rw [hres], fun _ => by rw [hres], fun hc => absurd hz hc⟩
    · have hpres : (Json.getEntry kvs "maxProperties").isSome = true := by
        rw [hgmax]; rfl
      have hr : MaxMinKw.update_max_min_properties (Json.obj kvs) ty0 =
          (Json.obj (Json.eraseKey (Json.eraseKey kvs "maxProperties") "minProperties"),
            PrimitiveTypesBitMap.remove_all ty0 PrimitiveType.object.bit, true) := by
        unfold MaxMinKw.update_max_min_properties
        rw [hfire, cleanup_eq_erase kvs ty0 _ _ _ hz hpres]
      set kvs2 := Json.eraseKey (Json.eraseKey kvs "maxProperties") "minProperties" with hkvs2
      have hget2 : ∀ k, k ≠ "maxProperties" → k ≠ "minProperties" →
          Json.getEntry kvs2 k = Json.getEntry kvs k := by
        intro k hk1 hk2
        rw [hkvs2, getEntry_eraseKey_ne _ _ _ hk2, getEntry_eraseKey_ne _ _ _ hk1]
      have hpexclusive : ∀ ty, MaxMinKw.update_exclusive_maximum_minimum (Json.obj kvs2) ty =
          (Json.obj kvs2, ty, false) := fun ty => by
        unfold MaxMinKw.update_exclusive_maximum_minimum
        exact update_pair_aware_noop _ _ _ _ _ _ _
          (by simp [Json.get, hget2 "exclusiveMaximum" (by decide) (by decide),
            habs "exclusiveMaximum" (by decide)])
          (by simp [Json.get, hget2 "exclusiveMinimum" (by decide) (by decide),
            habs "exclusiveMinimum" (by decide)])
      have hpnumeric : ∀ ty, MaxMinKw.update_maximum_minimum (Json.obj kvs2) ty =
          (Json.obj kvs2, ty, false) := fun ty => by
        unfold MaxMinKw.update_maximum_minimum
        exact update_pair_aware_noop _ _ _ _ _ _ _
          (by simp [Json.get, hget2 "maximum" (by decide) (by decide),
            habs "maximum" (by decide)])
          (by simp [Json.get, hget2 "minimum" (by decide) (by decide),
            habs "minimum" (by decide)])
      have hres : MaxMinKw.update_max_min_related_keywords (Json.obj kvs) =
          (Json.obj (Replace.type_with kvs2
              (PrimitiveTypesBitMap.remove_all ty0 PrimitiveType.object.bit)).1,
            true) := by
        unfold MaxMinKw.update_max_min_related_keywords
        rw [← hty0]
        dsimp only
        rw [hbitems]
        dsimp only
        rw [hblength]
        dsimp only
        rw [hr]
        dsimp only
        rw [hpexclusive]
        dsimp only
        rw [hpnumeric]
        dsimp only
        rfl
      have hred127 := remove_all_ne_127 ty0 PrimitiveType.object.bit (by decide)
      have hsome := to_schema_value_isSome _ hz hred127
      refine ⟨by rw [hres], fun hc => absurd hc hz, fun _ => ⟨?_, ?_, ?_, ?_⟩⟩
      · rw [hres]
        simp only [Json.get]
        rw [type_with_get_ne _ _ _ (by decide)]
        rw [hkvs2, getEntry_eraseKey_ne _ _ _ (by decide : ("maxProperties" : String) ≠ "minProperties")]
        exact getEntry_eraseKey_self kvs "maxProperties" hnd
      · rw [hres]
        simp only [Json.get]
        rw [type_with_get_ne _ _ _ (by decide)]
        rw [hkvs2]
        exact getEntry_eraseKey_self _ "minProperties" (eraseKey_nodup kvs "maxProperties" hnd)
      · rw [hres]
        simp only [Json.get]
        exact type_with_get_type kvs2 _ hsome
      · intro k hk1 hk2 hk3
        rw [hres]
        simp only [Json.get]
        rw [type_with_get_ne _ _ _ hk3]
        exact hget2 k hk1 hk2
  | exclusive =>
    simp only [MMPair.maxKey, MMPair.minKey, MMPair.trigger, MMPair.bits,
      MMPair.otherKeys] at h1 h2 htrig habs ⊢
    have hgmax := bind_asF64_some kvs "exclusiveMaximum" mx (by simpa [Json.get] using h1)
    have hfire := update_pair_aware_fire PrimitiveType.integer
      MaxMinKw.numericBits "exclusiveMaximum" "exclusiveMinimum" false (Json.obj kvs)
      (PrimitiveTypesBitMap.from_schema (Json.obj kvs)) mx mn htrig h1 h2 hlt
    set ty0 := PrimitiveTypesBitMap.from_schema (Json.obj kvs) with hty0
    have hbitems : ∀ ty, MaxMinKw.update_max_min_items (Json.obj kvs) ty =
        (Json.obj kvs, ty, false) := fun ty => by
      unfold MaxMinKw.update_max_min_items
      exact update_pair_aware_noop _ _ _ _ _ _ _
        (by simp [Json.get, habs "maxItems" (by decide)])
        (by simp [Json.get, habs "minItems" (by decide)])
    have hblength : ∀ ty, MaxMinKw.update_max_min_length (Json.obj kvs) ty =
        (Json.obj kvs, ty, false) := fun ty => by
      unfold MaxMinKw.update_max_min_length
      exact update_pair_aware_noop _ _ _ _ _ _ _
        (by simp [Json.get, habs "maxLength" (by decide)])
        (by simp [Json.get, habs "minLength" (by decide)])
    have hbprops : ∀ ty, MaxMinKw.update_max_min_properties (Json.obj kvs) ty =
        (Json.obj kvs, ty, false) := fun ty => by
      unfold MaxMinKw.update_max_min_properties
      exact update_pair_aware_noop _ _ _ _ _ _ _
        (by simp [Json.get, habs "maxProperties" (by decide)])
        (by simp [Json.get, habs "minProperties" (by decide)])
    by_cases hz : PrimitiveTypesBitMap.remove_all ty0 MaxMinKw.numericBits = 0
    · have hr : MaxMinKw.update_exclusive_maximum_minimum (Json.obj kvs) ty0 =
          (Json.bool false, 0, true) := by
        unfold MaxMinKw.update_exclusive_maximum_minimum
        rw [hfire, cleanup_eq_false kvs ty0 _ _ _ hz]
      have hpnumeric : ∀ ty, MaxMinKw.update_maximum_minimum (Json.bool false) ty =
          (Json.bool false, ty, false) := fun ty => by
        unfold MaxMinKw.update_maximum_minimum
        exact update_pair_aware_noop _ _ _ _ _ _ _ rfl rfl
      have hres : MaxMinKw.update_max_min_related_keywords (Json.obj kvs) =
          (Json.bool false, true) := by
        unfold MaxMinKw.update_max_min_related_keywords
        rw [← hty0]
        dsimp only
        rw [hbitems]
        dsimp only
        rw [hblength]
        dsimp only
        rw [hbprops]
        dsimp only
        rw [hr]
        dsimp only
        rw [hpnumeric]
        dsimp only
        rfl
      exact ⟨by rw [hres], fun _ => by rw [hres], fun hc => absurd hz hc⟩
    · have hpres : (Json.getEntry kvs "exclusiveMaximum").isSome = true := by
        rw [hgmax]; rfl
      have hr : MaxMinKw.update_exclusive_maximum_minimum (Json.obj kvs) ty0 =
          (Json.obj (Json.eraseKey (Json.eraseKey kvs "exclusiveMaximum") "exclusiveMinimum"),
            PrimitiveTypesBitMap.remove_all ty0 MaxMinKw.numericBits, true) := by
        unfold MaxMinKw.update_exclusive_maximum_minimum
        rw [hfire, cleanup_eq_erase kvs ty0 _ _ _ hz hpres]
      set kvs2 := Json.eraseKey (Json.eraseKey kvs "exclusiveMaximum") "exclusiveMinimum" with hkvs2
      have hget2 : ∀ k, k ≠ "exclusiveMaximum" → k ≠ "exclusiveMinimum" →
          Json.getEntry kvs2 k = Json.getEntry kvs k := by
        intro k hk1 hk2
        rw [hkvs2, getEntry_eraseKey_ne _ _ _ hk2, getEntry_eraseKey_ne _ _ _ hk1]
      have hpnumeric : ∀ ty, MaxMinKw.update_maximum_minimum (Json.obj kvs2) ty =
          (Json.obj kvs2, ty, false) := fun ty => by
        unfold MaxMinKw.update_maximum_minimum
        exact update_pair_aware_noop _ _ _ _ _ _ _
          (by simp [Json.get, hget2 "maximum" (by decide) (by decide),
            habs "maximum" (by decide)])
          (by simp [Json.get, hget2 "minimum" (by decide) (by decide),
            habs "minimum" (by decide)])
      have hres : MaxMinKw.update_max_min_related_keywords (Json.obj kvs) =
          (Json.obj (Replace.type_with kvs2
              (PrimitiveTypesBitMap.remove_all ty0 MaxMinKw.numericBits)).1,
            true) := by
        unfold MaxMinKw.update_max_min_related_keywords
        rw [← hty0]
        dsimp only
        rw [hbitems]
        dsimp only
        rw [hblength]
        dsimp only
        rw [hbprops]
        dsimp only
        rw [hr]
        dsimp only
        rw [hpnumeric]
        dsimp only
        rfl
      have hred127 := remove_all_ne_127 ty0 MaxMinKw.numericBits (by decide)
      have hsome := to_schema_value_isSome _ hz hred127
      refine ⟨by rw [hres], fun hc => absurd hc hz, fun _ => ⟨?_, ?_, ?_, ?_⟩⟩
      · rw [hres]
        simp only [Json.get]
        rw [type_with_get_ne _ _ _ (by decide)]
        rw [hkvs2, getEntry_eraseKey_ne _ _ _ (by decide : ("exclusiveMaximum" : String) ≠ "exclusiveMinimum")]
        exact getEntry_eraseKey_self kvs "exclusiveMaximum" hnd
      · rw [hres]
        simp only [Json.get]
        rw [type_with_get_ne _ _ _ (by decide)]
        rw [hkvs2]
        exact getEntry_eraseKey_self _ "exclusiveMinimum" (eraseKey_nodup kvs "exclusiveMaximum" hnd)
      · rw [hres]
        simp only [Json.get]
        exact type_with_get_type kvs2 _ hsome
      · intro k hk1 hk2 hk3
        rw [hres]
        simp only [Json.get]
        rw [type_with_get_ne _ _ _ hk3]
        exact hget2 k hk1 hk2
  | numeric =>
    simp only [MMPair.maxKey, MMPair.minKey, MMPair.trigger, MMPair.bits,
      MMPair.otherKeys] at h1 h2 htrig habs ⊢
    have hgmax := bind_asF64_some kvs "maximum" mx (by simpa [Json.get] using h1)
    have hfire := update_pair_aware_fire PrimitiveType.integer
      MaxMinKw.numericBits "maximum" "minimum" false (Json.obj kvs)
      (PrimitiveTypesBitMap.from_schema (Json.obj kvs)) mx mn htrig h1 h2 hlt
    set ty0 := PrimitiveTypesBitMap.from_schema (Json.obj kvs) with hty0
    have hbitems : ∀ ty, MaxMinKw.update_max_min_items (Json.obj kvs) ty =
        (Json.obj kvs, ty, false) := fun ty => by
      unfold MaxMinKw.update_max_min_items
      exact update_pair_aware_noop _ _ _ _ _ _ _
        (by simp [Json.get, habs "maxItems" (by decide)])
        (by simp [Json.get, habs "minItems" (by decide)])
    have hblength : ∀ ty, MaxMinKw.update_max_min_length (Json.obj kvs) ty =
        (Json.obj kvs, ty, false) := fun ty => by
      unfold MaxMinKw.update_max_min_length
      exact update_pair_aware_noop _ _ _ _ _ _ _
        (by simp [Json.get, habs "maxLength" (by decide)])
        (by simp [Json.get, habs "minLength" (by decide)])
    have hbprops : ∀ ty, MaxMinKw.update_max_min_properties (Json.obj kvs) ty =
        (Json.obj kvs, ty, false) := fun ty => by
      unfold MaxMinKw.update_max_min_properties
      exact update_pair_aware_noop _ _ _ _ _ _ _
        (by simp [Json.get, habs "maxProperties" (by decide)])
        (by simp [Json.get, habs "minProperties" (by decide)])
    have hbexclusive : ∀ ty, MaxMinKw.update_exclusive_maximum_minimum (Json.obj kvs) ty =
        (Json.obj kvs, ty, false) := fun ty => by
      unfold MaxMinKw.update_exclusive_maximum_minimum
      exact update_pair_aware_noop _ _ _ _ _ _ _
        (by simp [Json.get, habs "exclusiveMaximum" (by decide)])
        (by simp [Json.get, habs "exclusiveMinimum" (by decide)])
    by_cases hz : PrimitiveTypesBitMap.remove_all ty0 MaxMinKw.numericBits = 0
    · have hr : MaxMinKw.update_maximum_minimum (Json.obj kvs) ty0 =
          (Json.bool false, 0, true) := by
        unfold MaxMinKw.update_maximum_minimum
        rw [hfire, cleanup_eq_false kvs ty0 _ _ _ hz]
      have hres : MaxMinKw.update_max_min_related_keywords (Json.obj kvs) =
          (Json.bool false, true) := by
        unfold MaxMinKw.update_max_min_related_keywords
        rw [← hty0]
        dsimp only
        rw [hbitems]
        dsimp only
        rw [hblength]
        dsimp only
        rw [hbprops]
        dsimp only
        rw [hbexclusive]
        dsimp only
        rw [hr]
        dsimp only
        rfl
      exact ⟨by rw [hres], fun _ => by rw [hres], fun hc => absurd hz hc⟩
    · have hpres : (Json.getEntry kvs "maximum").isSome = true := by
        rw [hgmax]; rfl
      have hr : MaxMinKw.update_maximum_minimum (Json.obj kvs) ty0 =
          (Json.obj (Json.eraseKey (Json.eraseKey kvs "maximum") "minimum"),
            PrimitiveTypesBitMap.remove_all ty0 MaxMinKw.numericBits, true) := by
        unfold MaxMinKw.update_maximum_minimum
        rw [hfire, cleanup_eq_erase kvs ty0 _ _ _ hz hpres]
      set kvs2 := Json.eraseKey (Json.eraseKey kvs "maximum") "minimum" with hkvs2
      have hget2 : ∀ k, k ≠ "maximum" → k ≠ "minimum" →
          Json.getEntry kvs2 k = Json.getEntry kvs k := by
        intro k hk1 hk2
        rw [hkvs2, getEntry_eraseKey_ne _ _ _ hk2, getEntry_eraseKey_ne _ _ _ hk1]
      have hres : MaxMinKw.update_max_min_related_keywords (Json.obj kvs) =
          (Json.obj (Replace.type_with kvs2
              (PrimitiveTypesBitMap.remove_all ty0 MaxMinKw.numericBits)).1,
            true) := by
        unfold MaxMinKw.update_max_min_related_keywords
        rw [← hty0]
        dsimp only
        rw [hbitems]
        dsimp only
        rw [hblength]
        dsimp only
        rw [hbprops]
        dsimp only
        rw [hbexclusive]
        dsimp only
        rw [hr]
        dsimp only
        rfl
      have hred127 := remove_all_ne_127 ty0 MaxMinKw.numericBits (by decide)
      have hsome := to_schema_value_isSome _ hz hred127
      refine ⟨by rw [hres], fun hc => absurd hc hz, fun _ => ⟨?_, ?_, ?_, ?_⟩⟩
      · rw [hres]
        simp only [Json.get]
        rw [type_with_get_ne _ _ _ (by decide)]
        rw [hkvs2, getEntry_eraseKey_ne _ _ _ (by decide : ("maximum" : String) ≠ "minimum")]
        exact getEntry_eraseKey_self kvs "maximum" hnd
      · rw [hres]
        simp only [Json.get]
        rw [type_with_get_ne _ _ _ (by decide)]
        rw [hkvs2]
        exact getEntry_eraseKey_self _ "minimum" (eraseKey_nodup kvs "maximum" hnd)
      · rw [hres]
        simp only [Json.get]
        exact type_with_get_type kvs2 _ hsome
      · intro k hk1 hk2 hk3
        rw [hres]
        simp only [Json.get]
        rw [type_with_get_ne _ _ _ hk3]
        exact hget2 k hk1 hk2

/-! ## Behaviour of the iteration loop of `jsonschema_equivalent_ref` -/

theorem jeLoop_behaviour (fuel : Nat) :
    ∀ s : Json, ∃ n, n ≤ fuel ∧
      jeLoop fuel s = Keywords.update_schema^[n] s ∧
      (n < fuel → Keywords.update_schema (Keywords.update_schema^[n] s) =
        Keywords.update_schema^[n] s) ∧
      (∀ k < n, Keywords.update_schema^[k + 1] s ≠
        Keywords.update_schema^[k] s) := by
  induction fuel with
  | zero =>
    intro s
    exact ⟨0, le_rfl, rfl, fun h => absurd h (by omega),
      fun k hk => absurd hk (by omega)⟩
  | succ m ih =>
    intro s
    simp only [jeLoop]
    by_cases h : Keywords.update_schema s = s
    · refine ⟨0, Nat.zero_le _, ?_, fun _ => ?_, fun k hk => absurd hk (by omega)⟩
      · rw [if_pos h, h]
        rfl
      · simpa using h
    · obtain ⟨n, hn, heq, hstop, hchg⟩ := ih (Keywords.update_schema s)
      refine ⟨n + 1, by omega, ?_, ?_, ?_⟩
      · rw [if_neg h, heq, ← Function.iterate_succ_apply]
      · intro hlt
        rw [Function.iterate_succ_apply]
        exact hstop (by omega)
      · intro k hk
        cases k with
        | zero => simpa using h
        | succ j =>
          have hj := hchg j (by omega)
          rw [Function.iterate_succ_apply (f := Keywords.update_schema) (n := j + 1),
            Function.iterate_succ_apply (f := Keywords.update_schema) (n := j)]
          exact hj

theorem jeLoop_fix (fuel : Nat) (s : Json)
    (h : Keywords.update_schema s = s) : jeLoop fuel s = s := by
  cases fuel with
  | zero => rfl
  | succ m =>
    simp only [jeLoop]
    rw [if_pos h, h]

/-! ## Concrete inputs used by the claim theorems -/

/-- The schema `{"type": "string", "maxItems": 1, "minItems": 2}`. -/
def inputC1 : Json :=
  .obj [("type", .str "string"), ("maxItems", .num 1), ("minItems", .num 2)]

/-- The schema `{"allOf": [true, {"type": "string"}]}`. -/
def inputC3 : Json :=
  .obj [("allOf", .arr [.bool true, .obj [("type", .str "string")]])]

/-- The schema `{"items": {"type": "string"}}`. -/
def leftC4 : Json := .obj [("items", .obj [("type", .str "string")])]

/-- The schema `{"items": {"type": "number"}}`. -/
def rightC4 : Json := .obj [("items", .obj [("type", .str "number")])]

/-- The schema `{"type": "number", "maximum": 1, "minimum": 2}`. -/
def inputC6 : Json :=
  .obj [("type", .str "number"), ("maximum", .num 1), ("minimum", .num 2)]

/-- The entries of `{"type": ["array", "null"], "maxItems": 1, "minItems": 2}`. -/
def witEntriesC6 : List (String × Json) :=
  [("type", .arr [.str "array", .str "null"]), ("maxItems", .num 1),
   ("minItems", .num 2)]

/-! ## Claim theorems -/

/-- Claim C1: the spec says validating any instance against the simplifier's
output always gives the same result as against the input.  The code violates
this: `update_min_max_related_keywords` (the rule wired into the driver)
replaces any schema carrying a `type` keyword and a `max* < min*` pair with
the `false` schema without checking that the pair's type is allowed, so
`{"type": "string", "maxItems": 1, "minItems": 2}` simplifies to `false`
although the string `"ab"` validates against the input (per the
spec-modelled validator fragment) and against nothing after simplification. -/
theorem claim_C1_simplifier_changes_accepted_set :
    jsonschema_equivalent inputC1 = Json.bool false ∧
    SpecModel.validateFragment inputC1 (Json.str "ab") = true ∧
    SpecModel.validateFragment (jsonschema_equivalent inputC1)
      (Json.str "ab") = false := by
  decide

/-- Claim C2: the public entry point runs the whole-tree driver at most 100
times, stops at the first pass that reports no change, and at the cap
returns the current iterate; hence simplification terminates.  Stated via
the iterates of `update_schema`: the result is the `n`-th iterate for some
`n ≤ 100`, if `n < 100` that iterate is a fixed point (the loop stopped
because a pass changed nothing), and every earlier pass did change the
schema. -/
theorem claim_C2_iteration_cap_and_early_stop :
    ∀ s : Json, ∃ n, n ≤ MAX_UPDATE_SCHEMA_ITERATIONS ∧
      jsonschema_equivalent_ref s = Keywords.update_schema^[n] s ∧
      (n < MAX_UPDATE_SCHEMA_ITERATIONS →
        Keywords.update_schema (Keywords.update_schema^[n] s) =
          Keywords.update_schema^[n] s) ∧
      (∀ k < n, Keywords.update_schema^[k + 1] s ≠
        Keywords.update_schema^[k] s) :=
  fun s => jeLoop_behaviour MAX_UPDATE_SCHEMA_ITERATIONS s

/-- Claim C3: every rule's changed flag is `true` iff the node's value
differs after the call.  `simplify_all_of` violates this: on
`{"allOf": [true, {"type": "string"}]}` it removes the `true` arm (the value
changes) but reports `false`, because the arm-removal path that does not
empty the array never sets the flag. -/
theorem claim_C3_changed_flag_violated_by_simplify_all_of :
    (AllOf.simplify_all_of inputC3).2 = false ∧
    (AllOf.simplify_all_of inputC3).1 =
      Json.obj [("allOf", .arr [.obj [("type", .str "string")]])] ∧
    (AllOf.simplify_all_of inputC3).1 ≠ inputC3 := by
  decide

/-- Claim C4: the spec says a right-hand `items` (or any other deferred
container keyword) whose value differs from the left's must leave the
intersection `Partial`.  The code skips the five `DEFFERRED_KEYWORDS`
entirely (the handler functions are stubs returning `false`), so
`intersect({"items": {"type": "string"}}, {"items": {"type": "number"}})`
returns `Complete` (`is_complete = true`) with `changed = false` and the
right-hand constraint silently dropped. -/
theorem claim_C4_deferred_keywords_do_not_mark_partial :
    leftC4.get "items" ≠ rightC4.get "items" ∧
    Intersect.intersection_schema leftC4 rightC4 = (leftC4, true, false) := by
  decide

/-- Claim C5 (counterexample): the claim says that for every right-hand
true-schema the intersection returns `Complete` with `changed = false` and
leaves the left side unchanged.  The empty object is a true-schema, yet
`intersect(true, {})` replaces the left `true` by `{}` and reports
`changed = true`. -/
theorem claim_C5_counterexample_true_left_empty_right :
    Is.true_schema (Json.obj []) = true ∧
    Intersect.intersection_schema (Json.bool true) (Json.obj []) =
      (Json.obj [], true, true) := by
  decide

/-- Claim C5 (amended): for a right-hand `true` boolean or a non-schema the
intersection is `Complete` with `changed = false` and the left side is
untouched; for the right-hand empty object the same holds unless the left
side is the boolean `true`, in which case the left side becomes the empty
object with `changed = true` (still `Complete`). -/
theorem claim_C5_amended_behaviour : ∀ l r : Json,
    ((r = Json.bool true ∨ (r.isObj = false ∧ r.isBool = false)) →
      Intersect.intersection_schema l r = (l, true, false)) ∧
    (r = Json.obj [] → l ≠ Json.bool true →
      Intersect.intersection_schema l r = (l, true, false)) ∧
    (r = Json.obj [] → l = Json.bool true →
      Intersect.intersection_schema l r = (Json.obj [], true, true)) := by
  intro l r
  refine ⟨?_, ?_, ?_⟩
  · rintro (rfl | ⟨ho, hb⟩)
    · rfl
    · cases r with
      | obj kvs => simp [Json.isObj] at ho
      | bool b => simp [Json.isBool] at hb
      | null => rfl
      | num q => rfl
      | str st => rfl
      | arr xs => rfl
  · rintro rfl hlne
    cases l with
    | bool b =>
      cases b with
      | true => exact absurd rfl hlne
      | false => rfl
    | obj kvs => rfl
    | null => rfl
    | num q => rfl
    | str st => rfl
    | arr xs => rfl
  · rintro rfl rfl
    rfl

/-- Witness for the amended claim C5, applying it to a concrete non-schema
right-hand side. -/
theorem claim_C5_amended_witness :
    Intersect.intersection_schema (Json.str "x") (Json.bool true) =
      (Json.str "x", true, false) :=
  (claim_C5_amended_behaviour (Json.str "x") (Json.bool true)).1 (Or.inl rfl)

/-- Claim C6: for every object schema and every max/min pair, when the
TypeSet contains the type the pair constrains (the numeric pairs are
triggered through the Integer bit, which the Number bit subsumes) and the
pair's max is strictly below its min, the rule removes exactly that type's
bits from the TypeSet; if the TypeSet empties the whole schema becomes the
boolean `false`, otherwise the two offending keywords are deleted and the
`type` keyword is rewritten to the reduced TypeSet, all other keys being
untouched.  Stated for schemas carrying no other max/min keywords (so that
exactly the named pair fires) with duplicate-free keys.  In particular
`{"type": "number", "maximum": 1, "minimum": 2}` simplifies to `false`,
both under this rule and under the public entry point. -/
theorem claim_C6_max_min_pair_rules :
    (∀ (p : MMPair) (kvs : List (String × Json)) (mx mn : ℚ),
      (kvs.map Prod.fst).Nodup →
      ((Json.obj kvs).get p.maxKey).bind Json.asF64 = some mx →
      ((Json.obj kvs).get p.minKey).bind Json.asF64 = some mn →
      mx < mn →
      PrimitiveTypesBitMap.contains
        (PrimitiveTypesBitMap.from_schema (Json.obj kvs)) p.trigger = true →
      (∀ k ∈ p.otherKeys, Json.getEntry kvs k = none) →
      (MaxMinKw.update_max_min_related_keywords (Json.obj kvs)).2 = true ∧
      (PrimitiveTypesBitMap.remove_all
          (PrimitiveTypesBitMap.from_schema (Json.obj kvs)) p.bits = 0 →
        (MaxMinKw.update_max_min_related_keywords (Json.obj kvs)).1 =
          Json.bool false) ∧
      (PrimitiveTypesBitMap.remove_all
          (PrimitiveTypesBitMap.from_schema (Json.obj kvs)) p.bits ≠ 0 →
        ((MaxMinKw.update_max_min_related_keywords (Json.obj kvs)).1.get
            p.maxKey = none ∧
         (MaxMinKw.update_max_min_related_keywords (Json.obj kvs)).1.get
            p.minKey = none ∧
         (MaxMinKw.update_max_min_related_keywords (Json.obj kvs)).1.get
            "type" =
            PrimitiveTypesBitMap.to_schema_value
              (PrimitiveTypesBitMap.remove_all
                (PrimitiveTypesBitMap.from_schema (Json.obj kvs)) p.bits) ∧
         (∀ k, k ≠ p.maxKey → k ≠ p.minKey → k ≠ "type" →
            (MaxMinKw.update_max_min_related_keywords (Json.obj kvs)).1.get k =
              Json.getEntry kvs k)))) ∧
    MaxMinKw.update_max_min_related_keywords inputC6 = (Json.bool false, true) ∧
    jsonschema_equivalent inputC6 = Json.bool false := by
  refine ⟨?_, by decide, by decide⟩
  intro p kvs mx mn hnd h1 h2 hlt htrig habs
  exact update_max_min_pair_behaviour p kvs mx mn hnd h1 h2 hlt htrig habs

/-- Witness for claim C6, applying the pair-rule statement to
`{"type": ["array", "null"], "maxItems": 1, "minItems": 2}` (the Array type
is removed and the two keywords deleted, leaving `{"type": "null"}`). -/
theorem claim_C6_witness :
    (MaxMinKw.update_max_min_related_keywords (Json.obj witEntriesC6)).2 =
      true ∧
    (MaxMinKw.update_max_min_related_keywords
      (Json.obj witEntriesC6)).1.get "maxItems" = none ∧
    (MaxMinKw.update_max_min_related_keywords
      (Json.obj witEntriesC6)).1.get "minItems" = none ∧
    (MaxMinKw.update_max_min_related_keywords
      (Json.obj witEntriesC6)).1.get "type" = some (Json.str "null") := by
  have h := claim_C6_max_min_pair_rules.1 MMPair.items witEntriesC6 1 2
    (by decide) (by decide) (by decide) (by decide) (by decide) (by decide)
  obtain ⟨ha, _, hc⟩ := h
  obtain ⟨c1, c2, c3, _⟩ := hc (by decide)
  refine ⟨ha, c1, c2, ?_⟩
  rw [c3]
  decide

/-- Claim C7: a value that is neither an object nor a boolean is passed
through unchanged: the driver performs no rewrite and both entry points
return the input exactly. -/
theorem claim_C7_non_schema_passthrough :
    ∀ v : Json, v.isObj = false → v.isBool = false →
      Keywords.update_schema v = v ∧
      jsonschema_equivalent_ref v = v ∧
      jsonschema_equivalent v = v := by
  intro v ho hb
  have hu : Keywords.update_schema v = v := by
    cases v with
    | obj kvs => simp [Json.isObj] at ho
    | bool b => simp [Json.isBool] at hb
    | null => rfl
    | num q => rfl
    | str st => rfl
    | arr xs => rfl
  exact ⟨hu, jeLoop_fix _ v hu, jeLoop_fix _ v hu⟩

/-- Witness for claim C7 at the number `3`. -/
theorem claim_C7_witness :
    (Json.num 3).isObj = false ∧ (Json.num 3).isBool = false ∧
    jsonschema_equivalent (Json.num 3) = Json.num 3 :=
  ⟨rfl, rfl, (claim_C7_non_schema_passthrough (Json.num 3) rfl rfl).2.2⟩

/-- Claim C8: for every TypeSet bitmap (a `u8` with the seven type bits),
serializing it back to a canonical `type` value follows the claim's rules:
an empty or full set yields no value, Integer is dropped when Number is also
present, a singleton becomes a string, and a larger set becomes an array of
names in the fixed order array, boolean, integer, null, number, object,
string — i.e. the code's `to_schema_value` coincides with the canonical
serialization spelled out by the claim. -/
theorem claim_C8_type_canonicalization :
    ∀ bm : Nat, bm < 128 →
      PrimitiveTypesBitMap.to_schema_value bm =
        SpecModel.canonicalTypeValue bm := by
  decide

/-- Witness for claim C8 at the bitmap `{array, string}` (bits 1 and 64). -/
theorem claim_C8_witness :
    PrimitiveTypesBitMap.to_schema_value 65 =
      SpecModel.canonicalTypeValue 65 :=
  claim_C8_type_canonicalization 65 (by decide)

/-- Claim C9: the size of the simplified schema — total keyword count plus
total sub-schema (array-element) count, recursively — never exceeds the size
of the input. -/
theorem claim_C9_monotone_size :
    ∀ s : Json, sizeJ (jsonschema_equivalent s) ≤ sizeJ s :=
  fun s => jeLoop_size_le MAX_UPDATE_SCHEMA_ITERATIONS s

/-- Claim C10: the driver also applies `update_schema` to the container map
of object-valued keywords such as `properties` (line 270 of
`keywords/mod.rs` runs on the keyword's value itself after the per-value
recursion), so keyword-shaped entries inside a `properties` map are
rewritten as if they were schema keywords: `{"properties": {"required": []}}`
becomes `{"properties": {}}` (the `required` rule fires inside the map) and
`{"properties": {"additionalProperties": true}}` likewise becomes
`{"properties": {}}`. -/
theorem claim_C10_container_maps_treated_as_schemas :
    Keywords.update_schema
        (Json.obj [("properties", Json.obj [("required", Json.arr [])])]) =
      Json.obj [("properties", Json.obj [])] ∧
    Keywords.update_schema
        (Json.obj [("properties",
          Json.obj [("additionalProperties", Json.bool true)])]) =
      Json.obj [("properties", Json.obj [])] := by
  decide
